import Mathlib

/-!
Verification of the medusa-store sync codebase.

Shallow embedding of:
- `src/jobs/daily-product-sync.ts` (fetchWithRetry, mapToMedusaFormat,
  fetchAllProducts, dailyProductSync)
- `src/workflows/batch-products.ts` (manageBrandsStep, manageCategoriesStep,
  createProductsStep, updateProductsStep, linkProductBrandsStep)
- the CSV export route (GET in the admin products export file)

JavaScript semantics that matter here are modelled explicitly:
- `new Map(list)` / plain-object records have last-write-wins lookup
  (`lastMatch`, `recGet`);
- `Array.from(new Set(xs))` keeps first occurrences in order (`jsSetDedup`);
- string falsiness treats `""` and `undefined` alike (`jsFalsy`).
-/

/-- Last-write-wins lookup: models building a JS `Map`/object by iterating
assignments and then reading a key. `foldl` keeps the latest match. -/
def lastMatch {α : Type} (p : α → Bool) (l : List α) : Option α :=
  l.foldl (fun acc x => if p x then some x else acc) none

/-- Record (JS object) lookup over an assignment list, last write wins. -/
def recGet {α : Type} (r : List (String × α)) (k : String) : Option α :=
  (lastMatch (fun e => e.1 == k) r).map (fun e => e.2)

theorem lastMatch_foldl_eq {α : Type} (p : α → Bool) (l : List α) :
    ∀ acc : Option α,
      l.foldl (fun acc x => if p x then some x else acc) acc
        = ((l.reverse.find? p).or acc) := by
  induction l with
  | nil => intro acc; simp
  | cons a t ih =>
      intro acc
      simp only [List.foldl_cons, ih, List.reverse_cons, List.find?_append]
      cases h : t.reverse.find? p with
      | some y => simp [Option.or]
      | none =>
          simp only [Option.or, List.find?]
          cases hp : p a <;> simp

theorem lastMatch_eq_find?_reverse {α : Type} (p : α → Bool) (l : List α) :
    lastMatch p l = l.reverse.find? p := by
  unfold lastMatch
  rw [lastMatch_foldl_eq]
  cases l.reverse.find? p <;> simp [Option.or]

theorem lastMatch_isSome_iff {α : Type} (p : α → Bool) (l : List α) :
    (lastMatch p l).isSome ↔ ∃ x ∈ l, p x = true := by
  rw [lastMatch_eq_find?_reverse, List.find?_isSome]
  constructor
  · rintro ⟨x, hx, hp⟩; exact ⟨x, List.mem_reverse.mp hx, hp⟩
  · rintro ⟨x, hx, hp⟩; exact ⟨x, List.mem_reverse.mpr hx, hp⟩

theorem lastMatch_eq_some {α : Type} {p : α → Bool} {l : List α} {x : α}
    (h : lastMatch p l = some x) : x ∈ l ∧ p x = true := by
  rw [lastMatch_eq_find?_reverse] at h
  exact ⟨List.mem_reverse.mp (List.mem_of_find?_eq_some h), List.find?_some h⟩

theorem lastMatch_append {α : Type} (p : α → Bool) (l₁ l₂ : List α) :
    lastMatch p (l₁ ++ l₂) = (lastMatch p l₂).or (lastMatch p l₁) := by
  simp [lastMatch_eq_find?_reverse, List.reverse_append, List.find?_append]

theorem recGet_append {α : Type} (r₁ r₂ : List (String × α)) (k : String) :
    recGet (r₁ ++ r₂) k = (recGet r₂ k).or (recGet r₁ k) := by
  unfold recGet
  rw [lastMatch_append]
  cases lastMatch (fun e => e.1 == k) r₂ <;> simp [Option.or]

theorem recGet_isSome_iff {α : Type} (r : List (String × α)) (k : String) :
    (recGet r k).isSome ↔ ∃ e ∈ r, e.1 = k := by
  unfold recGet
  rw [show ∀ o : Option (String × α), (o.map (fun e => e.2)).isSome = o.isSome by
        intro o; cases o <;> rfl]
  rw [lastMatch_isSome_iff]
  constructor
  · rintro ⟨e, he, hp⟩; exact ⟨e, he, by simpa using hp⟩
  · rintro ⟨e, he, hp⟩; exact ⟨e, he, by simpa using hp⟩

/-- Models `Array.from(new Set(xs))`: deduplication keeping the first occurrence of
each element, in order.  Fuel-indexed so that it is structurally recursive
(fuel `xs.length` always suffices). -/
def jsSetDedupF {α : Type} [DecidableEq α] : Nat → List α → List α
  | 0, _ => []
  | _, [] => []
  | fuel + 1, a :: l => a :: jsSetDedupF fuel (l.filter (fun x => decide (x ≠ a)))

/-- Models `Array.from(new Set(xs))`. -/
def jsSetDedup {α : Type} [DecidableEq α] (l : List α) : List α :=
  jsSetDedupF l.length l

theorem jsSetDedupF_subset {α : Type} [DecidableEq α] :
    ∀ (fuel : Nat) (l : List α) (x : α), x ∈ jsSetDedupF fuel l → x ∈ l := by
  intro fuel
  induction fuel with
  | zero => intro l x h; simp [jsSetDedupF] at h
  | succ n ih =>
      intro l x h
      cases l with
      | nil => simpa [jsSetDedupF] using h
      | cons a t =>
          simp only [jsSetDedupF, List.mem_cons] at h
          rcases h with h | h
          · simp [h]
          · have h2 := ih _ _ h
            simp only [List.mem_filter] at h2
            exact List.mem_cons_of_mem _ h2.1

theorem jsSetDedupF_complete {α : Type} [DecidableEq α] :
    ∀ (fuel : Nat) (l : List α), l.length ≤ fuel →
      ∀ x ∈ l, x ∈ jsSetDedupF fuel l := by
  intro fuel
  induction fuel with
  | zero =>
      intro l hl x hx
      cases l with
      | nil => simp at hx
      | cons a t => simp at hl
  | succ n ih =>
      intro l hl x hx
      cases l with
      | nil => simp at hx
      | cons a t =>
          simp only [jsSetDedupF, List.mem_cons]
          rcases List.mem_cons.mp hx with h | h
          · exact Or.inl h
          · by_cases hxa : x = a
            · exact Or.inl hxa
            · refine Or.inr (ih _ ?_ x ?_)
              · have ht : t.length ≤ n := by simp at hl; omega
                calc (t.filter (fun x => decide (x ≠ a))).length ≤ t.length :=
                      List.length_filter_le _ _
                  _ ≤ n := ht
              · simp [List.mem_filter, h, hxa]

theorem jsSetDedupF_nodup {α : Type} [DecidableEq α] :
    ∀ (fuel : Nat) (l : List α), (jsSetDedupF fuel l).Nodup := by
  intro fuel
  induction fuel with
  | zero => intro l; simp [jsSetDedupF]
  | succ n ih =>
      intro l
      cases l with
      | nil => simp [jsSetDedupF]
      | cons a t =>
          simp only [jsSetDedupF, List.nodup_cons]
          refine ⟨fun hmem => ?_, ih _⟩
          have := jsSetDedupF_subset n _ a hmem
          simp [List.mem_filter] at this

theorem jsSetDedup_mem_iff {α : Type} [DecidableEq α] (l : List α) (x : α) :
    x ∈ jsSetDedup l ↔ x ∈ l :=
  ⟨jsSetDedupF_subset _ _ _, jsSetDedupF_complete _ _ (Nat.le_refl _) _⟩

theorem jsSetDedup_nodup {α : Type} [DecidableEq α] (l : List α) :
    (jsSetDedup l).Nodup :=
  jsSetDedupF_nodup _ _

/-- JS string falsiness of an optional string: `undefined` and `""` are falsy. -/
def jsFalsy (o : Option String) : Bool :=
  match o with
  | none => true
  | some s => s == ""

/-! ## Handle / slug normalization

`name.toLowerCase().replace(/[^a-z0-9]+/g, "-")` and, for product handles,
an additional `.replace(/^-+|-+$/g, "")` strip of leading/trailing dashes.
-/

/-- A character kept by the slug regex `[a-z0-9]` (after lowercasing). -/
def slugKeep (c : Char) : Bool :=
  (decide ('a' ≤ c) && decide (c ≤ 'z')) || (decide ('0' ≤ c) && decide (c ≤ '9'))

/-- Models `replace(/[^a-z0-9]+/g, "-")`: collapse each run of non-kept characters
into a single dash.  The boolean flag records whether we are inside a run
whose dash has already been emitted. -/
def collapseAux : Bool → List Char → List Char
  | _, [] => []
  | inRun, c :: rest =>
    if slugKeep c then c :: collapseAux false rest
    else if inRun then collapseAux true rest
    else '-' :: collapseAux true rest

/-- Lowercase then collapse non-alphanumeric runs to single dashes.
Models `s.toLowerCase().replace(/[^a-z0-9]+/g, "-")`. -/
def nameToHandle (s : String) : String :=
  (collapseAux false (s.data.map Char.toLower)).asString

/-- Models `replace(/^-+|-+$/g, "")`: strip leading and trailing dashes. -/
def stripDashes (l : List Char) : List Char :=
  ((l.dropWhile (fun c => c == '-')).reverse.dropWhile (fun c => c == '-')).reverse

/-- The product handle built in `mapToMedusaFormat`
(`daily-product-sync.ts` line 44):
`title.toLowerCase().replace(/[^a-z0-9]+/g,"-").replace(/^-+|-+$/g,"") + "-" + id`. -/
def productHandle (title : String) (id : Nat) : String :=
  (stripDashes (collapseAux false (title.data.map Char.toLower))).asString
    ++ "-" ++ toString id

/-! ## Data model of `daily-product-sync.ts` -/

/-- A remote (DummyJSON) product, the fields the sync reads
(`DummyProduct` in `daily-product-sync.ts`; `brand` and `category` can be
absent in the remote data, hence `Option`). The floating-point `price` is
modelled as a rational. -/
structure RemoteProduct where
  id : Nat
  title : String
  description : String
  price : ℚ
  brand : Option String
  category : Option String
  thumbnail : String
deriving DecidableEq

/-- JS `Math.round` (round half up) on a rational. -/
def jsRound (q : ℚ) : Int := ⌊q + 1/2⌋

/-- A variant as built by `mapToMedusaFormat`: single default variant with a
single usd price in cents. -/
structure MedusaVariant where
  title : String
  priceAmount : Int
  currencyCode : String
deriving DecidableEq

/-- The normalized product record built by `mapToMedusaFormat`
(`daily-product-sync.ts` lines 39-66). `external_id` is the
`metadata.external_id` field; `brandName`/`categoryName` are carried for the
workflow. -/
structure MedusaProduct where
  title : String
  description : String
  handle : String
  status : String
  external_id : String
  thumbnail : String
  brandName : Option String
  categoryName : Option String
  variants : List MedusaVariant
deriving DecidableEq

/-- Models `mapToMedusaFormat` (`daily-product-sync.ts` lines 39-66). -/
def mapToMedusaFormat (product : RemoteProduct) : MedusaProduct :=
  { title := product.title
    description := product.description
    handle := productHandle product.title product.id
    status := "draft"
    external_id := toString product.id
    thumbnail := product.thumbnail
    brandName := product.brand
    categoryName := product.category
    variants := [{ title := "Default"
                   priceAmount := jsRound (product.price * 100)
                   currencyCode := "usd" }] }

/-! ## fetchWithRetry (`daily-product-sync.ts` lines 24-36)

The network is modelled as a function `att : Nat → Except String α` giving
the outcome of attempt `i` (fetch + ok-check + JSON parse combined).  The
run is instrumented to record the list of backoff waits performed and the
number of attempts issued. -/

/-- One run of the `for (let i = 0; i < retries; i++)` loop of
`fetchWithRetry`, starting at attempt index `i`.  Returns
(waits performed, attempts issued, result).  The `"Unreachable"` error
mirrors the `throw new Error("Unreachable")` after the loop. -/
def fetchGo {α : Type} (att : Nat → Except String α) (retries backoff : Nat) :
    Nat → List Nat × Nat × Except String α
  | i =>
    if h : i < retries then
      match att i with
      | .ok a => ([], 1, .ok a)
      | .error e =>
        if i = retries - 1 then ([], 1, .error e)
        else
          let r := fetchGo att retries backoff (i + 1)
          (backoff * 2 ^ i :: r.1, r.2.1 + 1, r.2.2)
    else ([], 0, .error "Unreachable")
termination_by i => retries - i
decreasing_by omega

/-- Models `fetchWithRetry(url, retries, backoff)`: run the retry loop from `i = 0`. -/
def fetchWithRetry {α : Type} (att : Nat → Except String α)
    (retries backoff : Nat) : List Nat × Nat × Except String α :=
  fetchGo att retries backoff 0

/-! ## fetchAllProducts (`daily-product-sync.ts` lines 69-87) -/

/-- The consistent remote catalog answering a `limit`/`skip` page request:
`products` of the response. `total` is always `catalog.length`. -/
def fetchPage {α : Type} (catalog : List α) (limit skip : Nat) : List α :=
  (catalog.drop skip).take limit

/-- The `while (hasMore)` loop of `fetchAllProducts`, yielding
(skip requested, page yielded) pairs.  Stops when a page is empty or when
the next skip reaches the reported total (`catalog.length`). -/
def fetchAllGo {α : Type} (catalog : List α) (limit : Nat) :
    Nat → List (Nat × List α)
  | skip =>
    if hp : (fetchPage catalog limit skip).isEmpty then []
    else if skip + limit ≥ catalog.length then [(skip, fetchPage catalog limit skip)]
    else (skip, fetchPage catalog limit skip) :: fetchAllGo catalog limit (skip + limit)
termination_by skip => catalog.length - skip
decreasing_by
  have hlim : limit ≠ 0 := by
    intro h0
    apply hp
    simp [fetchPage, h0]
  omega

/-- Models `fetchAllProducts(limit)`: the generator, starting at `skip = 0`. -/
def fetchAllProducts {α : Type} (catalog : List α) (limit : Nat) :
    List (Nat × List α) :=
  fetchAllGo catalog limit 0

/-! ## The create/update split of `dailyProductSync`
(`daily-product-sync.ts` lines 96-146) -/

/-- A product already stored in Medusa, as seen by the sync: its id and its
`metadata.external_id` (which may be absent). -/
structure StoredProduct where
  id : String
  external_id : Option String
deriving DecidableEq

/-- Models `productService.listProducts` filtered by external ids:
the stored products whose `metadata.external_id` is among `ids`. -/
def listByExternalIds (stored : List StoredProduct) (ids : List String) :
    List StoredProduct :=
  stored.filter (fun q =>
    match q.external_id with
    | some e => decide (e ∈ ids)
    | none => false)

/-- Models `new Map(existingProducts.map(p => [p.metadata?.external_id, p])).get(k)`:
last-write-wins lookup by external id. -/
def existingLookup (existing : List StoredProduct) (k : String) :
    Option StoredProduct :=
  lastMatch (fun q => decide (q.external_id = some k)) existing

/-- An entry of `updateBatch`: `{ id: existing.id, ...medusaProduct }`. -/
structure UpdateEntry where
  id : String
  data : MedusaProduct
deriving DecidableEq

/-- The `for (const p of batch)` loop body of `dailyProductSync`
(lines 112-125), accumulating `createBatch` and `updateBatch` in order. -/
def splitGo (lookup : String → Option StoredProduct) :
    List RemoteProduct → List MedusaProduct → List UpdateEntry →
    List MedusaProduct × List UpdateEntry
  | [], cs, us => (cs, us)
  | p :: rest, cs, us =>
    match lookup (toString p.id) with
    | some existing =>
        splitGo lookup rest cs (us ++ [⟨existing.id, mapToMedusaFormat p⟩])
    | none => splitGo lookup rest (cs ++ [mapToMedusaFormat p]) us

/-- The whole per-batch split of `dailyProductSync` (lines 100-125):
collect the batch's external ids, list matching stored products, build the
`Map`, and partition the batch into `(createBatch, updateBatch)`. -/
def splitBatch (stored : List StoredProduct) (batch : List RemoteProduct) :
    List MedusaProduct × List UpdateEntry :=
  let externalIds := batch.map (fun p => toString p.id)
  let existingProducts := listByExternalIds stored externalIds
  splitGo (existingLookup existingProducts) batch [] []

/-- Decidable form of "some stored product carries this remote product's id
as its external id". -/
def hasMatch (stored : List StoredProduct) (p : RemoteProduct) : Bool :=
  stored.any (fun q => decide (q.external_id = some (toString p.id)))

/-! ## Control flow of `dailyProductSync` over batches
(`daily-product-sync.ts` lines 96-146)

The run is modelled as a trace over an abstract remote: `pages skip` is the
outcome of fetching the page at offset `skip` (after retries) — an
exception or `(products, total)` — and `wfErr skip` is the list of errors
returned by `batchProductsWorkflow` for the batch fetched at `skip`
(`run` is called with `throwOnError: false`, so workflow errors come back
as a value).  The trace records which skips were processed, which had their
workflow errors logged via `logger.error`, and whether the outer
`catch (error)` fired (stopping the run). -/

structure SyncTrace where
  processed : List Nat
  logged : List Nat
  critical : Bool
deriving DecidableEq

/-- One execution of the `for await (const batch of fetchAllProducts(20))`
loop with the surrounding `try`/`catch`, fuel-indexed (the real loop's
termination depends on the remote's answers). -/
def dailySyncGo {α : Type} (pages : Nat → Except String (List α × Nat))
    (wfErr : Nat → List String) (limit : Nat) : Nat → Nat → SyncTrace
  | _, 0 => ⟨[], [], false⟩
  | skip, fuel + 1 =>
    match pages skip with
    | .error _ => ⟨[], [], true⟩
    | .ok (products, total) =>
      if products.isEmpty then ⟨[], [], false⟩
      else
        let rest :=
          if skip + limit ≥ total then (⟨[], [], false⟩ : SyncTrace)
          else dailySyncGo pages wfErr limit (skip + limit) fuel
        ⟨skip :: rest.processed,
         (if (wfErr skip).isEmpty then [] else [skip]) ++ rest.logged,
         rest.critical⟩

/-- Models `dailyProductSync`, from `skip = 0`. -/
def dailySync {α : Type} (pages : Nat → Except String (List α × Nat))
    (wfErr : Nat → List String) (limit fuel : Nat) : SyncTrace :=
  dailySyncGo pages wfErr limit 0 fuel

/-! ## Brand and category management
(`batch-products.ts` lines 34-132) -/

/-- A brand row of the custom brand module. -/
structure Brand where
  id : String
  name : String
deriving DecidableEq

/-- A product category row. -/
structure Category where
  id : String
  name : String
  handle : String
deriving DecidableEq

/-- Models `manageBrandsStep` (`batch-products.ts` lines 34-67), success path.
Inputs: the batch's brand names, the pre-existing brand store, and a fresh
id supply for `createBrands`.  Returns the name-to-id record (assignment
list), the created ids passed to compensation, and the created rows. -/
def manageBrands (brandNames : List String) (store : List Brand)
    (fresh : Nat → String) :
    List (String × String) × List String × List Brand :=
  if brandNames.isEmpty then ([], [], [])
  else
    let uniqueNames := jsSetDedup brandNames
    let existingBrands := store.filter (fun b => decide (b.name ∈ uniqueNames))
    let brandMap0 := existingBrands.map (fun b => (b.name, b.id))
    let toCreate := uniqueNames.filter (fun n => jsFalsy (recGet brandMap0 n))
    let created := ((List.range toCreate.length).zip toCreate).map
      (fun e => Brand.mk (fresh e.1) e.2)
    let brandMap := brandMap0 ++ created.map (fun b => (b.name, b.id))
    (brandMap, created.map (fun b => b.id), created)

/-- Models `deleteBrands(createdIds)` — the brand compensation handler
(`batch-products.ts` lines 62-66) applied to a store. -/
def deleteBrands (store : List Brand) (ids : List String) : List Brand :=
  store.filter (fun b => decide (b.id ∉ ids))

/-- Models `manageCategoriesStep` (`batch-products.ts` lines 70-132), success path
(`createProductCategories` does not throw).  The single `for (const name of
uniqueNames)` loop both fills `categoryMap` from existing handle matches and
accumulates `toCreate` `(name, handle)` pairs; created rows are then mapped
back to the first unique name with the same handle. -/
def manageCategories (categoryNames : List String) (store : List Category)
    (fresh : Nat → String) :
    List (String × String) × List String × List Category :=
  if categoryNames.isEmpty then ([], [], [])
  else
    let uniqueNames := jsSetDedup categoryNames
    let handles := uniqueNames.map nameToHandle
    let existingCategories :=
      store.filter (fun c => decide (c.handle ∈ handles))
    let scan := uniqueNames.foldl
      (fun (acc : List (String × String) × List (String × String)) n =>
        match lastMatch (fun c => decide (c.handle = nameToHandle n))
            existingCategories with
        | some c => (acc.1 ++ [(n, c.id)], acc.2)
        | none => (acc.1, acc.2 ++ [(n, nameToHandle n)]))
      ([], [])
    let toCreate := scan.2
    let created := ((List.range toCreate.length).zip toCreate).map
      (fun e => Category.mk (fresh e.1) e.2.1 e.2.2)
    let assignments := created.filterMap (fun c =>
      (uniqueNames.find? (fun u => decide (nameToHandle u = c.handle))).map
        (fun u => (u, c.id)))
    let categoryMap := scan.1 ++ assignments
    (categoryMap, created.map (fun c => c.id), created)

/-- Models `deleteProductCategories(createdIds)` — the category compensation
handler (`batch-products.ts` lines 127-131) applied to a store. -/
def deleteCategories (store : List Category) (ids : List String) :
    List Category :=
  store.filter (fun c => decide (c.id ∉ ids))

/-! ## Product status mapping
(`batch-products.ts` lines 143-147 and 173-175)

`ProductStatus[status.toUpperCase() as keyof typeof ProductStatus] ||
ProductStatus.DRAFT`.  `ProductStatus` is the framework's string enum with
keys DRAFT, PROPOSED, PUBLISHED, REJECTED; a string enum has no reverse
mapping, so indexing with anything other than those four keys yields
`undefined`, and `||` then falls back to DRAFT (the enum's values are
nonempty strings, hence truthy). -/

inductive PStatus where
  | DRAFT
  | PROPOSED
  | PUBLISHED
  | REJECTED
deriving DecidableEq

/-- Models `s.toUpperCase()`: uppercase each character. -/
def jsToUpper (s : String) : String :=
  ⟨s.data.map Char.toUpper⟩

/-- Models `ProductStatus[key]` for an arbitrary key string: `some` on the four
enum keys, `none` (undefined) otherwise. -/
def productStatusIndex (key : String) : Option PStatus :=
  if key = "DRAFT" then some .DRAFT
  else if key = "PROPOSED" then some .PROPOSED
  else if key = "PUBLISHED" then some .PUBLISHED
  else if key = "REJECTED" then some .REJECTED
  else none

/-- Models `ProductStatus[status.toUpperCase()] || ProductStatus.DRAFT`. -/
def resolveStatus (status : String) : PStatus :=
  (productStatusIndex (jsToUpper status)).getD .DRAFT

/-- The fields of a `ProductInput` of the create set that the status and
category mapping of `createProductsStep` reads. -/
structure CreateInput where
  status : String
  categoryName : Option String
deriving DecidableEq

/-- The status each dto of `createProductsStep` carries
(`batch-products.ts` line 145). -/
def createDtoStatuses (products : List CreateInput) : List PStatus :=
  products.map (fun p => resolveStatus p.status)

/-- The `status` field `updateProductsStep` adds to `updateData`
(`batch-products.ts` lines 173-175): only set when the input's `status` is
truthy (present and nonempty). -/
def updateStatusField (status : Option String) : Option PStatus :=
  match status with
  | some s => if s = "" then none else some (resolveStatus s)
  | none => none

/-! ## Link creation (`batch-products.ts` lines 191-259) -/

/-- A created/updated product as read by `linkProductBrandsStep`: its id and
`metadata?.external_id`. -/
structure WorkflowProduct where
  id : String
  external_id : Option String
deriving DecidableEq

/-- The fields of an original workflow input item that `getBrandId` reads:
`metadata?.external_id` and `brandName`. -/
structure LinkInputItem where
  external_id : Option String
  brandName : Option String
deriving DecidableEq

/-- A product-brand link object
`[Modules.PRODUCT]: (product_id), [BRAND_MODULE]: (brand_id)`. -/
structure LinkEntry where
  product_id : String
  brand_id : String
deriving DecidableEq

/-- JS truthiness filter on an optional string (`if (brandId)`):
`undefined` and `""` are falsy. -/
def jsTruthyStr (o : Option String) : Option String :=
  match o with
  | some s => if s = "" then none else some s
  | none => none

/-- Models `getBrandId` (`batch-products.ts` lines 211-218): find the input item
whose `metadata?.external_id` strictly equals the product's, and look its
`brandName` up in `brandMap` (the lookup itself may yield `undefined`). -/
def getBrandId (inputItems : List LinkInputItem)
    (brandMap : List (String × String)) (p : WorkflowProduct) :
    Option String :=
  match inputItems.find? (fun i => i.external_id == p.external_id) with
  | some i =>
      match i.brandName with
      | some bn => if bn = "" then none else recGet brandMap bn
      | none => none
  | none => none

/-- The `links` array built by the two loops of `linkProductBrandsStep`
(lines 221-240): one entry per created/updated product whose brand id is
truthy. -/
def buildLinks (createdProducts updatedProducts : List WorkflowProduct)
    (brandMap : List (String × String))
    (originalCreateInput originalUpdateInput : List LinkInputItem) :
    List LinkEntry :=
  createdProducts.filterMap (fun p =>
    (jsTruthyStr (getBrandId originalCreateInput brandMap p)).map
      (fun b => LinkEntry.mk p.id b))
  ++ updatedProducts.filterMap (fun p =>
    (jsTruthyStr (getBrandId originalUpdateInput brandMap p)).map
      (fun b => LinkEntry.mk p.id b))

/-- Models `uniqueLinks` (line 243):
`Array.from(new Set(links.map(JSON.stringify))).map(JSON.parse)` — the
links are fixed-shape two-key objects built with a fixed key order, so
stringify-equality is structural equality and the `Set` keeps first
occurrences in order. This is the list passed to `remoteLink.create`. -/
def linkCreatePayload (createdProducts updatedProducts : List WorkflowProduct)
    (brandMap : List (String × String))
    (originalCreateInput originalUpdateInput : List LinkInputItem) :
    List LinkEntry :=
  jsSetDedup (buildLinks createdProducts updatedProducts brandMap
    originalCreateInput originalUpdateInput)

/-! ## The CSV export route (`GET`, admin products export)

Data rows are built as
`[id, external_id || "", "title-quoted", handle, status, "brand-quoted",
priceDisplay, created_at].join(",")` where the two quoted fields double
embedded double quotes, and
`priceDisplay = usdPrice ? (usdPrice / 100).toFixed(2) : "N/A"` with
`usdPrice` the `usd` price amount of the first variant (if any).  A zero
amount is falsy in JS.  `toFixed(2)` on integer cents is modelled as exact
two-decimal rendering. -/

/-- Decimal digits of a natural number, fuel-indexed (structural); fuel
`n + 1` always suffices. -/
def natCharsF : Nat → Nat → List Char
  | 0, _ => []
  | fuel + 1, n =>
    if n < 10 then [Nat.digitChar n]
    else natCharsF fuel (n / 10) ++ [Nat.digitChar (n % 10)]

/-- Decimal digit characters of a natural number. -/
def natChars (n : Nat) : List Char := natCharsF (n + 1) n

/-- Models `(n / 100).toFixed(2)` for an integer cent amount `n`: the dollars part,
a dot, and the cents part padded to two digits. -/
def centsFixed2 (n : Nat) : String :=
  ⟨natChars (n / 100) ++ '.' ::
    (if n % 100 < 10 then ['0', Nat.digitChar (n % 100)] else natChars (n % 100))⟩

/-- A price row under a variant (`variants.prices.*`). -/
structure PriceRec where
  currency_code : String
  amount : Nat
deriving DecidableEq

/-- A variant row with its prices. -/
structure VariantRec where
  prices : List PriceRec
deriving DecidableEq

/-- A product record as read by the export route. -/
structure ExportProduct where
  id : String
  external_id : Option String
  title : String
  handle : String
  status : String
  brandName : Option String
  variants : List VariantRec
  created_at : String
deriving DecidableEq

/-- The `usdPrice` extraction (route lines 98-106): the amount of the first
`usd` price of the first variant, if any. -/
def extractUsd (variants : List VariantRec) : Option Nat :=
  match variants with
  | [] => none
  | v :: _ =>
      (v.prices.find? (fun pr => pr.currency_code == "usd")).map
        (fun pr => pr.amount)

/-- Models `usdPrice ? (usdPrice / 100).toFixed(2) : "N/A"` (route line 108);
note `0` is falsy. -/
def priceDisplay (o : Option Nat) : String :=
  match o with
  | some n => if n = 0 then "N/A" else centsFixed2 n
  | none => "N/A"

/-- Models `s.replace` doubling each double quote. -/
def escChars : List Char → List Char
  | [] => []
  | c :: rest =>
      if c = '"' then '"' :: '"' :: escChars rest else c :: escChars rest

/-- The template `"${s.replace(/"/g, '""')}"`: the escaped string wrapped in
double quotes. -/
def quoteField (s : String) : String :=
  ⟨'"' :: (escChars s.data ++ ['"'])⟩

/-- Models `array.join(",")`. -/
def joinComma : List String → String
  | [] => ""
  | [s] => s
  | s :: rest => s ++ "," ++ joinComma rest

/-- The data row the route writes for a product (route lines 111-120),
without the trailing newline. -/
def emitRow (p : ExportProduct) : String :=
  joinComma [p.id, p.external_id.getD "", quoteField p.title, p.handle,
    p.status, quoteField (p.brandName.getD ""),
    priceDisplay (extractUsd p.variants), p.created_at]

/-! ## A CSV row parser (specification side)

Standard CSV field rules: a field starting with `"` runs to the next
undoubled `"` (with `""` unescaping to `"`); otherwise the field runs to
the next comma. -/

/-- Read a quoted field body: returns (field characters, input after the
closing quote). `""` unescapes to a single `"`. -/
def readQuoted : List Char → List Char × List Char
  | [] => ([], [])
  | c :: rest =>
      if c = '"' then
        match rest with
        | [] => ([], [])
        | c2 :: rest2 =>
            if c2 = '"' then
              let r := readQuoted rest2
              ('"' :: r.1, r.2)
            else ([], rest)
      else
        let r := readQuoted rest
        (c :: r.1, r.2)

/-- Read an unquoted field: runs to the next comma (left in the input). -/
def readUnquoted : List Char → List Char × List Char
  | [] => ([], [])
  | c :: rest =>
      if c = ',' then ([], c :: rest)
      else
        let r := readUnquoted rest
        (c :: r.1, r.2)

/-- Split one CSV row into its fields, fuel-indexed (structural); fuel
`length + 1` always suffices since each field consumes at least the
separator. -/
def splitRowF : Nat → List Char → List String
  | 0, _ => []
  | _ + 1, [] => [""]
  | fuel + 1, c :: t =>
    let fr := if c = '"' then readQuoted t else readUnquoted (c :: t)
    match fr.2 with
    | ',' :: rest2 => fr.1.asString :: splitRowF fuel rest2
    | _ => [fr.1.asString]

/-- Parse a CSV row into its list of fields. -/
def splitRow (cs : List Char) : List String := splitRowF (cs.length + 1) cs

/-! ## Claim theorems -/

/-- C3: `fetchWithRetry` with default arguments (`retries = 2`) issues at
most 2 fetch attempts — exactly 1 when attempt 0 is ok, 2 otherwise; it
returns the parsed body of the first ok attempt; when attempt 0 (not the
last) fails it waits `backoff * 2 ^ 0` before attempt 1; and when the final
attempt fails it throws that attempt's error. -/
theorem fetchWithRetry_default_spec {α : Type} (att : Nat → Except String α)
    (backoff : Nat) :
    (fetchWithRetry att 2 backoff).2.1 ≤ 2 ∧
    (fetchWithRetry att 2 backoff).2.1
      = (match att 0 with | .ok _ => 1 | .error _ => 2) ∧
    (fetchWithRetry att 2 backoff).2.2
      = (match att 0 with | .ok a => .ok a | .error _ => att 1) ∧
    (fetchWithRetry att 2 backoff).1
      = (match att 0 with | .ok _ => [] | .error _ => [backoff * 2 ^ 0]) := by
  have hrun : fetchWithRetry att 2 backoff
      = (match att 0 with
         | .ok a => ([], 1, .ok a)
         | .error _ =>
            match att 1 with
            | .ok a => ([backoff * 2 ^ 0], 2, .ok a)
            | .error e => ([backoff * 2 ^ 0], 2, .error e)) := by
    unfold fetchWithRetry
    rw [fetchGo]
    simp only [show (0 : Nat) < 2 from by omega, dite_true]
    cases h0 : att 0 with
    | ok a => simp
    | error e =>
        simp only [show ¬((0 : Nat) = 2 - 1) from by omega, if_false]
        rw [fetchGo]
        simp only [show (1 : Nat) < 2 from by omega, dite_true]
        cases h1 : att 1 with
        | ok a => simp
        | error e2 => simp
  rw [hrun]
  cases h0 : att 0 with
  | ok a => simp
  | error e =>
      cases h1 : att 1 with
      | ok a => simp
      | error e2 => simp

/-- C8: the list of product-brand links that `linkProductBrandsStep` passes
to `remoteLink.create` (the stringify-deduplicated `uniqueLinks`) never
contains two structurally equal entries, for any created/updated product
lists and inputs. -/
theorem linkCreatePayload_nodup
    (createdProducts updatedProducts : List WorkflowProduct)
    (brandMap : List (String × String))
    (originalCreateInput originalUpdateInput : List LinkInputItem) :
    (linkCreatePayload createdProducts updatedProducts brandMap
      originalCreateInput originalUpdateInput).Nodup :=
  jsSetDedup_nodup _

/-- C9: the status mapping of `createProductsStep` and `updateProductsStep`
is total with a DRAFT default: every create dto carries
`resolveStatus status` (a defined `PStatus` value by type); when the
uppercased input names an enum key the named status is used, otherwise
DRAFT; and `updateProductsStep` only ever sets a defined status value
(computed the same way) or omits the field. -/
theorem status_mapping_draft_default :
    (∀ products : List CreateInput,
      createDtoStatuses products
        = products.map (fun p => resolveStatus p.status)) ∧
    (∀ s : String, ∀ k, productStatusIndex (jsToUpper s) = some k →
      resolveStatus s = k) ∧
    (∀ s : String, productStatusIndex (jsToUpper s) = none →
      resolveStatus s = PStatus.DRAFT) ∧
    (∀ st : Option String, ∀ k, updateStatusField st = some k →
      ∃ s, st = some s ∧ k = resolveStatus s) := by
  refine ⟨fun _ => rfl, fun s k h => ?_, fun s h => ?_, fun st k h => ?_⟩
  · unfold resolveStatus; rw [h]; rfl
  · unfold resolveStatus; rw [h]; rfl
  · cases st with
    | none => simp [updateStatusField] at h
    | some s =>
        by_cases hs : s = ""
        · simp [updateStatusField, hs] at h
        · simp only [updateStatusField, hs, if_false] at h
          exact ⟨s, rfl, (Option.some.injEq _ _ ▸ h.symm)⟩

/-- Witness for C9 at concrete inputs: a valid status string maps to its
enum value, an invalid one falls back to DRAFT. -/
theorem status_mapping_draft_default_witness :
    productStatusIndex (jsToUpper "published") = some PStatus.PUBLISHED ∧
    resolveStatus "published" = PStatus.PUBLISHED ∧
    productStatusIndex (jsToUpper "banana") = none ∧
    resolveStatus "banana" = PStatus.DRAFT :=
  ⟨by decide,
   status_mapping_draft_default.2.1 "published" PStatus.PUBLISHED (by decide),
   by decide,
   status_mapping_draft_default.2.2.1 "banana" (by decide)⟩

theorem fetchAllGo_join_aux {α : Type} (catalog : List α) (limit : Nat)
    (hl : 0 < limit) :
    ∀ (n skip : Nat), catalog.length - skip ≤ n →
      ((fetchAllGo catalog limit skip).map (fun e => e.2)).flatten
        = catalog.drop skip := by
  intro n
  induction n with
  | zero =>
      intro skip h
      have hdrop : catalog.drop skip = [] :=
        List.drop_eq_nil_iff.mpr (by omega)
      have hpage : (fetchPage catalog limit skip).isEmpty := by
        simp [fetchPage, hdrop]
      rw [fetchAllGo, dif_pos hpage, hdrop]
      simp
  | succ n ih =>
      intro skip h
      rw [fetchAllGo]
      by_cases hpage : (fetchPage catalog limit skip).isEmpty
      · have hdrop : catalog.drop skip = [] := by
          have h2 : (catalog.drop skip).take limit = [] := by
            simpa [fetchPage] using List.isEmpty_iff.mp hpage
          rcases List.take_eq_nil_iff.mp h2 with h0 | h0
          · omega
          · exact h0
        rw [dif_pos hpage, hdrop]
        simp
      · rw [dif_neg hpage]
        by_cases hlast : skip + limit ≥ catalog.length
        · rw [if_pos hlast]
          have hdlen : (catalog.drop skip).length ≤ limit := by
            rw [List.length_drop]; omega
          simp [fetchPage, List.take_of_length_le hdlen]
        · rw [if_neg hlast]
          simp only [List.map_cons, List.flatten_cons]
          rw [ih (skip + limit) (by omega)]
          have hdd : catalog.drop (skip + limit)
              = (catalog.drop skip).drop limit := by
            rw [List.drop_drop]
          rw [hdd, fetchPage, List.take_append_drop]

theorem fetchAllGo_skips_aux {α : Type} (catalog : List α) (limit : Nat) :
    ∀ (n skip : Nat), catalog.length - skip ≤ n →
      (fetchAllGo catalog limit skip).map (fun e => e.1)
        = List.range' skip (fetchAllGo catalog limit skip).length limit := by
  intro n
  induction n with
  | zero =>
      intro skip h
      have hdrop : catalog.drop skip = [] :=
        List.drop_eq_nil_iff.mpr (by omega)
      have hpage : (fetchPage catalog limit skip).isEmpty := by
        simp [fetchPage, hdrop]
      rw [fetchAllGo, dif_pos hpage]
      simp
  | succ n ih =>
      intro skip h
      rw [fetchAllGo]
      by_cases hpage : (fetchPage catalog limit skip).isEmpty
      · rw [dif_pos hpage]; simp
      · rw [dif_neg hpage]
        by_cases hlast : skip + limit ≥ catalog.length
        · rw [if_pos hlast]; simp
        · rw [if_neg hlast]
          have hlim : 0 < limit := by
            by_contra hc
            apply hpage
            have h0 : limit = 0 := by omega
            simp [fetchPage, h0]
          simp only [List.map_cons, List.length_cons]
          rw [ih (skip + limit) (by omega), List.range'_succ]

/-- C5: with a consistent paginated catalog and a positive page size, the
generator `fetchAllProducts` yields pages whose concatenation is exactly
the catalog (every remote product exactly once, in catalog order), and the
page requests are made at skip values `0, limit, 2 * limit, ...`
(`List.range' 0 n limit`).  Totality of `fetchAllGo` — it stops as soon as
a page comes back empty or the next skip reaches the reported total — is
established by its termination proof. -/
theorem fetchAllProducts_spec {α : Type} (catalog : List α) (limit : Nat)
    (hl : 0 < limit) :
    ((fetchAllProducts catalog limit).map (fun e => e.2)).flatten = catalog ∧
    (fetchAllProducts catalog limit).map (fun e => e.1)
      = List.range' 0 (fetchAllProducts catalog limit).length limit := by
  constructor
  · simpa using fetchAllGo_join_aux catalog limit hl catalog.length 0 (by omega)
  · simpa using fetchAllGo_skips_aux catalog limit catalog.length 0 (by omega)

/-- Witness for C5: a five-element catalog with page size 2 is yielded as
pages of 2, 2 and 1 products requested at skips 0, 2, 4. -/
theorem fetchAllProducts_spec_witness :
    0 < 2 ∧
    ((((fetchAllProducts [10, 20, 30, 40, 50] 2).map (fun e => e.2)).flatten
        = [10, 20, 30, 40, 50]) ∧
      (fetchAllProducts [10, 20, 30, 40, 50] 2).map (fun e => e.1)
        = List.range' 0 (fetchAllProducts [10, 20, 30, 40, 50] 2).length 2) :=
  ⟨by omega, fetchAllProducts_spec [10, 20, 30, 40, 50] 2 (by omega)⟩

theorem mem_listByExternalIds (stored : List StoredProduct) (ids : List String)
    (q : StoredProduct) :
    q ∈ listByExternalIds stored ids
      ↔ q ∈ stored ∧ ∃ e, q.external_id = some e ∧ e ∈ ids := by
  unfold listByExternalIds
  rw [List.mem_filter]
  constructor
  · rintro ⟨hm, hb⟩
    refine ⟨hm, ?_⟩
    cases hqe : q.external_id with
    | none => rw [hqe] at hb; simp at hb
    | some e =>
        rw [hqe] at hb
        simp only [decide_eq_true_eq] at hb
        exact ⟨e, rfl, hb⟩
  · rintro ⟨hm, e, he, hin⟩
    refine ⟨hm, ?_⟩
    rw [he]
    simpa using hin

theorem existingLookup_isSome_iff (existing : List StoredProduct) (k : String) :
    (existingLookup existing k).isSome = true
      ↔ ∃ q ∈ existing, q.external_id = some k := by
  unfold existingLookup
  rw [lastMatch_isSome_iff]
  simp

theorem existingLookup_eq_some {existing : List StoredProduct} {k : String}
    {q : StoredProduct} (h : existingLookup existing k = some q) :
    q ∈ existing ∧ q.external_id = some k := by
  have h2 := lastMatch_eq_some h
  simpa using h2

theorem hasMatch_iff (stored : List StoredProduct) (p : RemoteProduct) :
    hasMatch stored p = true
      ↔ ∃ q ∈ stored, q.external_id = some (toString p.id) := by
  unfold hasMatch
  rw [List.any_eq_true]
  simp

theorem splitGo_spec (lookup : String → Option StoredProduct) :
    ∀ (batch : List RemoteProduct) (cs : List MedusaProduct)
      (us : List UpdateEntry),
      (splitGo lookup batch cs us).1
          = cs ++ (batch.filter
              (fun p => !(lookup (toString p.id)).isSome)).map mapToMedusaFormat
        ∧ (splitGo lookup batch cs us).2.map (fun e => e.data)
          = us.map (fun e => e.data)
            ++ (batch.filter
              (fun p => (lookup (toString p.id)).isSome)).map mapToMedusaFormat
        ∧ ∀ e ∈ (splitGo lookup batch cs us).2,
            e ∈ us ∨ ∃ p ∈ batch, ∃ q, lookup (toString p.id) = some q
              ∧ e = ⟨q.id, mapToMedusaFormat p⟩ := by
  intro batch
  induction batch with
  | nil => intro cs us; simp [splitGo]
  | cons p rest ih =>
      intro cs us
      cases hl : lookup (toString p.id) with
      | some q =>
          have hS : (lookup (toString p.id)).isSome = true := by rw [hl]; rfl
          simp only [splitGo, hl]
          obtain ⟨h1, h2, h3⟩ := ih cs (us ++ [⟨q.id, mapToMedusaFormat p⟩])
          refine ⟨?_, ?_, ?_⟩
          · rw [h1, List.filter_cons]
            simp [hS]
          · rw [h2, List.filter_cons]
            simp [hS]
          · intro e he
            rcases h3 e he with hmem | ⟨p2, hp2, q2, hq2, he2⟩
            · rcases List.mem_append.mp hmem with hu | hu
              · exact Or.inl hu
              · right
                refine ⟨p, List.mem_cons_self _ _, q, hl, ?_⟩
                simpa using hu
            · exact Or.inr ⟨p2, List.mem_cons_of_mem _ hp2, q2, hq2, he2⟩
      | none =>
          have hS : (lookup (toString p.id)).isSome = false := by rw [hl]; rfl
          simp only [splitGo, hl]
          obtain ⟨h1, h2, h3⟩ := ih (cs ++ [mapToMedusaFormat p]) us
          refine ⟨?_, ?_, ?_⟩
          · rw [h1, List.filter_cons]
            simp [hS]
          · rw [h2, List.filter_cons]
            simp [hS]
          · intro e he
            rcases h3 e he with hmem | ⟨p2, hp2, q2, hq2, he2⟩
            · exact Or.inl hmem
            · exact Or.inr ⟨p2, List.mem_cons_of_mem _ hp2, q2, hq2, he2⟩

theorem splitBatch_eq (stored : List StoredProduct)
    (batch : List RemoteProduct) :
    splitBatch stored batch
      = splitGo
          (existingLookup
            (listByExternalIds stored (batch.map (fun r => toString r.id))))
          batch [] [] := rfl

theorem lookup_isSome_eq_hasMatch (stored : List StoredProduct)
    (batch : List RemoteProduct) (p : RemoteProduct) (hp : p ∈ batch) :
    (existingLookup
        (listByExternalIds stored (batch.map (fun r => toString r.id)))
        (toString p.id)).isSome
      = hasMatch stored p := by
  have hk : toString p.id ∈ batch.map (fun r => toString r.id) :=
    List.mem_map_of_mem _ hp
  have hiff :
      ((existingLookup
          (listByExternalIds stored (batch.map (fun r => toString r.id)))
          (toString p.id)).isSome = true)
        ↔ (hasMatch stored p = true) := by
    rw [existingLookup_isSome_iff, hasMatch_iff]
    constructor
    · rintro ⟨q, hq, hqe⟩
      exact ⟨q, ((mem_listByExternalIds _ _ _).mp hq).1, hqe⟩
    · rintro ⟨q, hq, hqe⟩
      refine ⟨q, (mem_listByExternalIds _ _ _).mpr ⟨hq, _, hqe, hk⟩, hqe⟩
  cases hL : (existingLookup
      (listByExternalIds stored (batch.map (fun r => toString r.id)))
      (toString p.id)).isSome
    <;> cases hR : hasMatch stored p <;> simp_all

theorem filter_partition_length (l : List RemoteProduct)
    (m : RemoteProduct → Bool) :
    (l.filter (fun p => !(m p))).length + (l.filter m).length = l.length := by
  induction l with
  | nil => simp
  | cons a t ih =>
      cases hm : m a <;> simp [List.filter_cons, hm] <;> omega

/-- C1: `dailyProductSync` partitions each fetched batch into the create
set and the update set keyed by external id: a remote product goes to the
update set iff some stored product's `metadata.external_id` equals the
string form of its numeric id (`hasMatch`), and to the create set
otherwise; each update entry carries the id of such a matching stored
product; and every batch element lands in exactly one of the two sets. -/
theorem dailyProductSync_split_spec (stored : List StoredProduct)
    (batch : List RemoteProduct) :
    (splitBatch stored batch).1.length + (splitBatch stored batch).2.length
        = batch.length
      ∧ (splitBatch stored batch).1
        = (batch.filter (fun p => !(hasMatch stored p))).map mapToMedusaFormat
      ∧ (splitBatch stored batch).2.map (fun e => e.data)
        = (batch.filter (fun p => hasMatch stored p)).map mapToMedusaFormat
      ∧ (∀ p : RemoteProduct, hasMatch stored p = true
          ↔ ∃ q ∈ stored, q.external_id = some (toString p.id))
      ∧ ∀ e ∈ (splitBatch stored batch).2,
          ∃ q ∈ stored, e.id = q.id ∧ ∃ p ∈ batch,
            q.external_id = some (toString p.id)
              ∧ e.data = mapToMedusaFormat p := by
  obtain ⟨h1, h2, h3⟩ :=
    splitGo_spec
      (existingLookup
        (listByExternalIds stored (batch.map (fun r => toString r.id))))
      batch [] []
  rw [splitBatch_eq]
  have hfneg :
      batch.filter (fun p =>
        !(existingLookup
            (listByExternalIds stored (batch.map (fun r => toString r.id)))
            (toString p.id)).isSome)
        = batch.filter (fun p => !(hasMatch stored p)) :=
    List.filter_congr (fun p hp => by
      rw [lookup_isSome_eq_hasMatch stored batch p hp])
  have hfpos :
      batch.filter (fun p =>
        (existingLookup
            (listByExternalIds stored (batch.map (fun r => toString r.id)))
            (toString p.id)).isSome)
        = batch.filter (fun p => hasMatch stored p) :=
    List.filter_congr (fun p hp => by
      rw [lookup_isSome_eq_hasMatch stored batch p hp])
  rw [hfneg] at h1
  rw [hfpos] at h2
  refine ⟨?_, ?_, ?_, hasMatch_iff stored, ?_⟩
  · have hl1 : (splitGo
        (existingLookup
          (listByExternalIds stored (batch.map (fun r => toString r.id))))
        batch [] []).1.length
        = (batch.filter (fun p => !(hasMatch stored p))).length := by
      rw [h1]; simp
    have hl2 : (splitGo
        (existingLookup
          (listByExternalIds stored (batch.map (fun r => toString r.id))))
        batch [] []).2.length
        = (batch.filter (fun p => hasMatch stored p)).length := by
      have := congrArg List.length h2
      simpa using this
    rw [hl1, hl2]
    exact filter_partition_length batch (hasMatch stored)
  · simpa using h1
  · simpa using h2
  · intro e he
    rcases h3 e he with hmem | ⟨p, hp, q, hq, he2⟩
    · simp at hmem
    · have hq2 := existingLookup_eq_some hq
      have hqs := (mem_listByExternalIds _ _ _).mp hq2.1
      exact ⟨q, hqs.1, by rw [he2], p, hp, hq2.2, by rw [he2]⟩

/-- C7: when every remote product's id string already appears as some
stored product's `metadata.external_id`, the create set is empty and every
batch element is routed to the update set, each entry targeting a stored
product whose external id is exactly the entry's own
`metadata.external_id`; and `mapToMedusaFormat` assigns the same
`external_id` (the id's string form) and the same handle (a pure function
of title and id) to the same remote product on every run. -/
theorem resync_idempotent (stored : List StoredProduct)
    (batch : List RemoteProduct)
    (h : ∀ p ∈ batch, ∃ q ∈ stored, q.external_id = some (toString p.id)) :
    (splitBatch stored batch).1 = []
      ∧ (splitBatch stored batch).2.length = batch.length
      ∧ (∀ e ∈ (splitBatch stored batch).2,
          ∃ q ∈ stored, e.id = q.id ∧ q.external_id = some e.data.external_id)
      ∧ ∀ p : RemoteProduct,
          (mapToMedusaFormat p).external_id = toString p.id
            ∧ (mapToMedusaFormat p).handle = productHandle p.title p.id := by
  obtain ⟨h1, h2, h3, _, h5⟩ := dailyProductSync_split_spec stored batch
  have hall : ∀ p ∈ batch, hasMatch stored p = true := by
    intro p hp
    rw [hasMatch_iff]
    exact h p hp
  have hfneg : batch.filter (fun p => !(hasMatch stored p)) = [] := by
    rw [List.filter_eq_nil_iff]
    intro p hp
    rw [hall p hp]
    simp
  have hfpos : batch.filter (fun p => hasMatch stored p) = batch :=
    List.filter_eq_self.mpr hall
  refine ⟨by rw [h2, hfneg]; simp, ?_, ?_, fun p => ⟨rfl, rfl⟩⟩
  · have := congrArg List.length h3
    rw [hfpos] at this
    simpa using this
  · intro e he
    obtain ⟨q, hq, hid, p, _, hqe, hdata⟩ := h5 e he
    refine ⟨q, hq, hid, ?_⟩
    rw [hdata]
    exact hqe

/-- Witness for C7: a one-element batch whose id string is already stored
as an external id yields an empty create set and a full update set. -/
theorem resync_idempotent_witness :
    (∀ p ∈ [RemoteProduct.mk 1 "Phone" "A phone" 5 (some "Apple")
        (some "phones") "p.jpg"],
      ∃ q ∈ [StoredProduct.mk "prod_01" (some "1")],
        q.external_id = some (toString p.id))
    ∧ (splitBatch [StoredProduct.mk "prod_01" (some "1")]
        [RemoteProduct.mk 1 "Phone" "A phone" 5 (some "Apple")
          (some "phones") "p.jpg"]).1 = []
    ∧ (splitBatch [StoredProduct.mk "prod_01" (some "1")]
        [RemoteProduct.mk 1 "Phone" "A phone" 5 (some "Apple")
          (some "phones") "p.jpg"]).2.length
      = [RemoteProduct.mk 1 "Phone" "A phone" 5 (some "Apple")
          (some "phones") "p.jpg"].length := by
  have hh : ∀ p ∈ [RemoteProduct.mk 1 "Phone" "A phone" 5 (some "Apple")
      (some "phones") "p.jpg"],
      ∃ q ∈ [StoredProduct.mk "prod_01" (some "1")],
        q.external_id = some (toString p.id) := by
    intro p hp
    simp only [List.mem_singleton] at hp
    subst hp
    exact ⟨StoredProduct.mk "prod_01" (some "1"), by simp, by rfl⟩
  have hc := resync_idempotent _ _ hh
  exact ⟨hh, hc.1, hc.2.1⟩

/-- C6 counterexample input: a remote whose page at skip 0 succeeds, whose
page at skip 1 fails (even after retries), and whose page at skip 2 would
succeed with another product. The reported total is 3 with page size 1. -/
def syncPagesExample : Nat → Except String (List Nat × Nat) :=
  fun skip =>
    if skip = 0 then .ok ([100], 3)
    else if skip = 1 then .error "network down"
    else .ok ([300], 3)

/-- C6 counterexample input: no batch returns workflow errors. -/
def noWfErrors : Nat → List String := fun _ => []

/-- C6 counterexample: the claim extends "errors in a batch are logged and
the run continues" to the failure to fetch a batch's page, but a fetch
failure propagates to the outer `catch`, which logs it as critical and
stops the run: with `syncPagesExample` the batch at skip 1 fails to fetch,
and the batch at skip 2 — which exists and is fetchable — is never fetched
or processed (only skip 0 is), contradicting the claim. -/
theorem dailySync_fetch_error_stops_run :
    syncPagesExample 1 = .error "network down"
    ∧ syncPagesExample 2 = .ok ([300], 3)
    ∧ dailySync syncPagesExample noWfErrors 1 10 = ⟨[0], [], true⟩
    ∧ 2 ∉ (dailySync syncPagesExample noWfErrors 1 10).processed := by
  refine ⟨rfl, rfl, by decide, by decide⟩
/-- C6 (amended): errors returned by the batch workflow (run with
`throwOnError: false`) are logged and never affect which batches are
fetched and processed — the processed skips and the critical flag are
independent of the workflow errors, and the logged skips are exactly the
processed ones whose workflow returned a nonempty error list.  However, a
batch whose page fetch fails (after retries) aborts the entire run via the
outer catch (see the counterexample), so continuation holds for workflow
errors, not for fetch errors. -/
theorem dailySync_workflow_errors_logged {α : Type}
    (pages : Nat → Except String (List α × Nat))
    (wfErr wfErr2 : Nat → List String) (limit : Nat) :
    ∀ (fuel skip : Nat),
      (dailySyncGo pages wfErr limit skip fuel).processed
          = (dailySyncGo pages wfErr2 limit skip fuel).processed
        ∧ (dailySyncGo pages wfErr limit skip fuel).critical
          = (dailySyncGo pages wfErr2 limit skip fuel).critical
        ∧ (dailySyncGo pages wfErr limit skip fuel).logged
          = (dailySyncGo pages wfErr limit skip fuel).processed.filter
              (fun s => !(wfErr s).isEmpty) := by
  intro fuel
  induction fuel with
  | zero => intro skip; simp [dailySyncGo]
  | succ n ih =>
      intro skip
      simp only [dailySyncGo]
      cases hp : pages skip with
      | error e => exact ⟨by simp, by simp, by simp⟩
      | ok pt =>
          obtain ⟨prods, total⟩ := pt
          by_cases hemp : prods.isEmpty
          · simp only [if_pos hemp]
            exact ⟨by simp, by simp, by simp⟩
          · simp only [if_neg hemp]
            by_cases hlast : skip + limit ≥ total
            · simp only [if_pos hlast]
              refine ⟨by simp, by simp, ?_⟩
              simp only [List.filter_cons, List.filter_nil]
              cases hw : (wfErr skip).isEmpty <;> simp [hw]
            · simp only [if_neg hlast]
              obtain ⟨ih1, ih2, ih3⟩ := ih (skip + limit)
              refine ⟨?_, ?_, ?_⟩
              · simp [ih1]
              · simp [ih2]
              · simp only [List.filter_cons]
                cases hw : (wfErr skip).isEmpty <;> simp [hw, ih3]

theorem recGet_eq_some {α : Type} {r : List (String × α)} {k : String} {v : α}
    (h : recGet r k = some v) : ∃ e ∈ r, e.1 = k ∧ e.2 = v := by
  unfold recGet at h
  cases hm : lastMatch (fun e => e.1 == k) r with
  | none => rw [hm] at h; exact absurd h (by simp)
  | some e =>
      rw [hm] at h
      have h2 := lastMatch_eq_some hm
      exact ⟨e, h2.1, by simpa using h2.2, by simpa using h⟩

theorem manageBrands_createdIds_eq (brandNames : List String)
    (store : List Brand) (fresh : Nat → String) :
    (manageBrands brandNames store fresh).2.1
      = (manageBrands brandNames store fresh).2.2.map (fun b => b.id) := by
  unfold manageBrands
  by_cases h : brandNames.isEmpty
  · rw [if_pos h]; rfl
  · rw [if_neg h]

theorem manageBrands_created_fresh (brandNames : List String)
    (store : List Brand) (fresh : Nat → String) :
    ∀ b ∈ (manageBrands brandNames store fresh).2.2, ∃ i, b.id = fresh i := by
  unfold manageBrands
  by_cases h : brandNames.isEmpty
  · rw [if_pos h]; intro b hb; simp at hb
  · rw [if_neg h]
    intro b hb
    obtain ⟨e, _, he⟩ := List.mem_map.mp hb
    exact ⟨e.1, by rw [← he]⟩

theorem manageCategories_createdIds_eq (categoryNames : List String)
    (store : List Category) (fresh : Nat → String) :
    (manageCategories categoryNames store fresh).2.1
      = (manageCategories categoryNames store fresh).2.2.map (fun c => c.id) := by
  unfold manageCategories
  by_cases h : categoryNames.isEmpty
  · rw [if_pos h]; rfl
  · rw [if_neg h]

theorem manageCategories_created_fresh (categoryNames : List String)
    (store : List Category) (fresh : Nat → String) :
    ∀ c ∈ (manageCategories categoryNames store fresh).2.2,
      ∃ i, c.id = fresh i := by
  unfold manageCategories
  by_cases h : categoryNames.isEmpty
  · rw [if_pos h]; intro c hc; simp at hc
  · rw [if_neg h]
    intro c hc
    obtain ⟨e, _, he⟩ := List.mem_map.mp hc
    exact ⟨e.1, by rw [← he]⟩

theorem deleteBrands_append {store created : List Brand} {ids : List String}
    (h1 : ∀ b ∈ store, b.id ∉ ids) (h2 : ∀ b ∈ created, b.id ∈ ids) :
    deleteBrands (store ++ created) ids = store := by
  unfold deleteBrands
  rw [List.filter_append]
  rw [List.filter_eq_self.mpr (fun b hb => by simpa using h1 b hb)]
  rw [List.filter_eq_nil_iff.mpr (fun b hb => by simpa using h2 b hb)]
  simp

theorem deleteCategories_append {store created : List Category}
    {ids : List String}
    (h1 : ∀ c ∈ store, c.id ∉ ids) (h2 : ∀ c ∈ created, c.id ∈ ids) :
    deleteCategories (store ++ created) ids = store := by
  unfold deleteCategories
  rw [List.filter_append]
  rw [List.filter_eq_self.mpr (fun c hc => by simpa using h1 c hc)]
  rw [List.filter_eq_nil_iff.mpr (fun c hc => by simpa using h2 c hc)]
  simp

/-- C4: when the created ids are fresh (no id collides with a pre-existing
row, as module-generated ids are), the ids handed to the compensation
handlers of the brand and category steps are precisely the ids of the rows
created by that run — never a pre-existing matched row's id — and running
the handlers (`deleteBrands` / `deleteProductCategories`) on the store
augmented by the created rows removes exactly those rows, leaving every
pre-existing brand and category intact. -/
theorem compensation_deletes_exactly_created
    (brandNames : List String) (brandStore : List Brand)
    (categoryNames : List String) (categoryStore : List Category)
    (freshB freshC : Nat → String)
    (hfb : ∀ i, freshB i ∉ brandStore.map (fun b => b.id))
    (hfc : ∀ i, freshC i ∉ categoryStore.map (fun c => c.id)) :
    ((manageBrands brandNames brandStore freshB).2.1
        = (manageBrands brandNames brandStore freshB).2.2.map (fun b => b.id))
    ∧ (∀ id ∈ (manageBrands brandNames brandStore freshB).2.1,
        id ∉ brandStore.map (fun b => b.id))
    ∧ deleteBrands
        (brandStore ++ (manageBrands brandNames brandStore freshB).2.2)
        (manageBrands brandNames brandStore freshB).2.1 = brandStore
    ∧ ((manageCategories categoryNames categoryStore freshC).2.1
        = (manageCategories categoryNames categoryStore freshC).2.2.map
            (fun c => c.id))
    ∧ (∀ id ∈ (manageCategories categoryNames categoryStore freshC).2.1,
        id ∉ categoryStore.map (fun c => c.id))
    ∧ deleteCategories
        (categoryStore
          ++ (manageCategories categoryNames categoryStore freshC).2.2)
        (manageCategories categoryNames categoryStore freshC).2.1
      = categoryStore := by
  have hbid := manageBrands_createdIds_eq brandNames brandStore freshB
  have hcid := manageCategories_createdIds_eq categoryNames categoryStore freshC
  have hbnotin : ∀ id ∈ (manageBrands brandNames brandStore freshB).2.1,
      id ∉ brandStore.map (fun b => b.id) := by
    intro id hid
    rw [hbid] at hid
    obtain ⟨b, hb, hbi⟩ := List.mem_map.mp hid
    obtain ⟨i, hι⟩ := manageBrands_created_fresh brandNames brandStore freshB b hb
    rw [← hbi, hι]
    exact hfb i
  have hcnotin : ∀ id ∈ (manageCategories categoryNames categoryStore freshC).2.1,
      id ∉ categoryStore.map (fun c => c.id) := by
    intro id hid
    rw [hcid] at hid
    obtain ⟨c, hc, hci⟩ := List.mem_map.mp hid
    obtain ⟨i, hι⟩ :=
      manageCategories_created_fresh categoryNames categoryStore freshC c hc
    rw [← hci, hι]
    exact hfc i
  refine ⟨hbid, hbnotin, ?_, hcid, hcnotin, ?_⟩
  · refine deleteBrands_append (fun b hb hmem => ?_) (fun b hb => ?_)
    · exact hbnotin _ hmem (List.mem_map_of_mem _ hb)
    · rw [hbid]
      exact List.mem_map_of_mem _ hb
  · refine deleteCategories_append (fun c hc hmem => ?_) (fun c hc => ?_)
    · exact hcnotin _ hmem (List.mem_map_of_mem _ hc)
    · rw [hcid]
      exact List.mem_map_of_mem _ hc

/-- Witness for C4 at concrete inputs: one pre-existing brand and category,
fresh constant ids distinct from theirs; compensation restores exactly the
pre-existing stores. -/
theorem compensation_deletes_exactly_created_witness :
    (("nb" : String) ∉ [Brand.mk "b1" "Old"].map (fun b => b.id))
    ∧ (("nc" : String) ∉ [Category.mk "c1" "Old" "old"].map (fun c => c.id))
    ∧ deleteBrands
        ([Brand.mk "b1" "Old"]
          ++ (manageBrands ["Acme"] [Brand.mk "b1" "Old"]
                (fun _ => "nb")).2.2)
        (manageBrands ["Acme"] [Brand.mk "b1" "Old"] (fun _ => "nb")).2.1
      = [Brand.mk "b1" "Old"]
    ∧ deleteCategories
        ([Category.mk "c1" "Old" "old"]
          ++ (manageCategories ["Phones"] [Category.mk "c1" "Old" "old"]
                (fun _ => "nc")).2.2)
        (manageCategories ["Phones"] [Category.mk "c1" "Old" "old"]
          (fun _ => "nc")).2.1
      = [Category.mk "c1" "Old" "old"] := by
  have hfb0 : ("nb" : String) ∉ [Brand.mk "b1" "Old"].map (fun b => b.id) := by
    decide
  have hfc0 : ("nc" : String)
      ∉ [Category.mk "c1" "Old" "old"].map (fun c => c.id) := by
    decide
  have hres := compensation_deletes_exactly_created ["Acme"]
    [Brand.mk "b1" "Old"] ["Phones"] [Category.mk "c1" "Old" "old"]
    (fun _ => "nb") (fun _ => "nc") (fun _ => hfb0) (fun _ => hfc0)
  exact ⟨hfb0, hfc0, hres.2.2.1, hres.2.2.2.2.2⟩

theorem or_isSome {α : Type} (a b : Option α) :
    (a.or b).isSome = (a.isSome || b.isSome) := by
  cases a <;> simp [Option.or]

theorem jsFalsy_false_isSome {o : Option String} (h : jsFalsy o = false) :
    o.isSome := by
  cases o <;> simp [jsFalsy] at h ⊢

theorem jsFalsy_true_cases {o : Option String} (h : jsFalsy o = true) :
    o = none ∨ o = some "" := by
  cases o with
  | none => exact Or.inl rfl
  | some s =>
      simp only [jsFalsy, beq_iff_eq] at h
      exact Or.inr (by rw [h])

theorem exists_zip_range {α : Type} {l : List α} {x : α} (hx : x ∈ l) :
    ∃ i, (i, x) ∈ (List.range l.length).zip l := by
  induction l with
  | nil => simp at hx
  | cons a t ih =>
      rcases List.mem_cons.mp hx with rfl | hx2
      · exact ⟨0, by simp [List.range_succ_eq_map]⟩
      · obtain ⟨i, hi⟩ := ih hx2
        refine ⟨i + 1, ?_⟩
        rw [show (a :: t).length = t.length + 1 from rfl,
          List.range_succ_eq_map, List.zip_cons_cons]
        refine List.mem_cons_of_mem _ ?_
        rw [List.zip_map_left]
        exact List.mem_map.mpr ⟨(i, x), hi, rfl⟩

/-- The name-to-id record built from the pre-existing brands matched by
name (`brandMap` before creation, `batch-products.ts` lines 48-49). -/
def brandPool (brandNames : List String) (store : List Brand) :
    List (String × String) :=
  (store.filter (fun b => decide (b.name ∈ jsSetDedup brandNames))).map
    (fun b => (b.name, b.id))

/-- Models `toCreate` of `manageBrandsStep` (line 51). -/
def brandToCreate (brandNames : List String) (store : List Brand) :
    List String :=
  (jsSetDedup brandNames).filter
    (fun n => jsFalsy (recGet (brandPool brandNames store) n))

/-- The brand rows returned by `createBrands(toCreate)` (line 55). -/
def brandCreated (brandNames : List String) (store : List Brand)
    (fresh : Nat → String) : List Brand :=
  ((List.range (brandToCreate brandNames store).length).zip
      (brandToCreate brandNames store)).map (fun e => Brand.mk (fresh e.1) e.2)

theorem manageBrands_eq (brandNames : List String) (store : List Brand)
    (fresh : Nat → String) (h : brandNames.isEmpty = false) :
    manageBrands brandNames store fresh
      = (brandPool brandNames store
           ++ (brandCreated brandNames store fresh).map (fun b => (b.name, b.id)),
         (brandCreated brandNames store fresh).map (fun b => b.id),
         brandCreated brandNames store fresh) := by
  unfold manageBrands brandCreated brandToCreate brandPool
  rw [if_neg (by simp [h])]

theorem brandCreated_names (brandNames : List String) (store : List Brand)
    (fresh : Nat → String) :
    (brandCreated brandNames store fresh).map (fun b => b.name)
      = brandToCreate brandNames store := by
  unfold brandCreated
  rw [List.map_map]
  have h1 : ((fun b => b.name) ∘ fun (e : Nat × String) => Brand.mk (fresh e.1) e.2)
      = Prod.snd := rfl
  rw [h1]
  exact List.map_snd_zip _ _ (by simp)

/-- The existing categories fetched by handle
(`batch-products.ts` lines 84-86). -/
def catPool (categoryNames : List String) (store : List Category) :
    List Category :=
  store.filter (fun c =>
    decide (c.handle ∈ (jsSetDedup categoryNames).map nameToHandle))

/-- The `categoryMap` entries contributed by existing handle matches in the
`for (const name of uniqueNames)` loop (lines 93-100). -/
def catMatched (categoryNames : List String) (store : List Category) :
    List (String × String) :=
  (jsSetDedup categoryNames).filterMap (fun n =>
    (lastMatch (fun c => decide (c.handle = nameToHandle n))
        (catPool categoryNames store)).map (fun c => (n, c.id)))

/-- The `toCreate` `(name, handle)` pairs of the same loop. -/
def catToCreate (categoryNames : List String) (store : List Category) :
    List (String × String) :=
  ((jsSetDedup categoryNames).filter (fun n =>
      !(lastMatch (fun c => decide (c.handle = nameToHandle n))
          (catPool categoryNames store)).isSome)).map
    (fun n => (n, nameToHandle n))

/-- The category rows returned by `createProductCategories(toCreate)`
(line 105), success path. -/
def catCreated (categoryNames : List String) (store : List Category)
    (fresh : Nat → String) : List Category :=
  ((List.range (catToCreate categoryNames store).length).zip
      (catToCreate categoryNames store)).map
    (fun e => Category.mk (fresh e.1) e.2.1 e.2.2)

/-- The `categoryMap` entries contributed by the `created.forEach` loop
(lines 106-109): each created row assigned to the first unique name whose
handle equals the row's handle. -/
def catAssignments (categoryNames : List String) (store : List Category)
    (fresh : Nat → String) : List (String × String) :=
  (catCreated categoryNames store fresh).filterMap (fun c =>
    ((jsSetDedup categoryNames).find?
        (fun u => decide (nameToHandle u = c.handle))).map (fun u => (u, c.id)))

theorem catScan_spec (ex : List Category) :
    ∀ (names : List String)
      (acc : List (String × String) × List (String × String)),
      (names.foldl
        (fun (acc : List (String × String) × List (String × String)) n =>
          match lastMatch (fun c => decide (c.handle = nameToHandle n)) ex with
          | some c => (acc.1 ++ [(n, c.id)], acc.2)
          | none => (acc.1, acc.2 ++ [(n, nameToHandle n)]))
        acc)
      = (acc.1 ++ names.filterMap (fun n =>
            (lastMatch (fun c => decide (c.handle = nameToHandle n)) ex).map
              (fun c => (n, c.id))),
         acc.2 ++ (names.filter (fun n =>
            !(lastMatch (fun c => decide (c.handle = nameToHandle n))
                ex).isSome)).map (fun n => (n, nameToHandle n))) := by
  intro names
  induction names with
  | nil => intro acc; simp
  | cons n rest ih =>
      intro acc
      simp only [List.foldl_cons]
      cases hm : lastMatch (fun c => decide (c.handle = nameToHandle n)) ex with
      | some c =>
          rw [ih]
          simp [List.filterMap_cons, List.filter_cons, hm]
      | none =>
          rw [ih]
          simp [List.filterMap_cons, List.filter_cons, hm]

theorem manageCategories_eq (categoryNames : List String)
    (store : List Category) (fresh : Nat → String)
    (h : categoryNames.isEmpty = false) :
    manageCategories categoryNames store fresh
      = (catMatched categoryNames store
           ++ catAssignments categoryNames store fresh,
         (catCreated categoryNames store fresh).map (fun c => c.id),
         catCreated categoryNames store fresh) := by
  unfold manageCategories catAssignments catCreated catToCreate catMatched catPool
  rw [if_neg (by simp [h])]
  simp only [catScan_spec]
  simp

theorem manageBrands_empty (brandNames : List String) (store : List Brand)
    (fresh : Nat → String) (h : brandNames.isEmpty = true) :
    manageBrands brandNames store fresh = ([], [], []) := by
  unfold manageBrands; rw [if_pos h]

theorem manageBrands_fst (brandNames : List String) (store : List Brand)
    (fresh : Nat → String) (h : brandNames.isEmpty = false) :
    (manageBrands brandNames store fresh).1
      = brandPool brandNames store
        ++ (brandCreated brandNames store fresh).map (fun b => (b.name, b.id)) := by
  rw [manageBrands_eq brandNames store fresh h]

theorem manageBrands_snd (brandNames : List String) (store : List Brand)
    (fresh : Nat → String) (h : brandNames.isEmpty = false) :
    (manageBrands brandNames store fresh).2.2
      = brandCreated brandNames store fresh := by
  rw [manageBrands_eq brandNames store fresh h]

theorem manageCategories_empty (categoryNames : List String)
    (store : List Category) (fresh : Nat → String)
    (h : categoryNames.isEmpty = true) :
    manageCategories categoryNames store fresh = ([], [], []) := by
  unfold manageCategories; rw [if_pos h]

theorem manageCategories_fst (categoryNames : List String)
    (store : List Category) (fresh : Nat → String)
    (h : categoryNames.isEmpty = false) :
    (manageCategories categoryNames store fresh).1
      = catMatched categoryNames store
        ++ catAssignments categoryNames store fresh := by
  rw [manageCategories_eq categoryNames store fresh h]

theorem manageCategories_snd (categoryNames : List String)
    (store : List Category) (fresh : Nat → String)
    (h : categoryNames.isEmpty = false) :
    (manageCategories categoryNames store fresh).2.2
      = catCreated categoryNames store fresh := by
  rw [manageCategories_eq categoryNames store fresh h]

theorem catCreated_handles (categoryNames : List String)
    (store : List Category) (fresh : Nat → String) :
    (catCreated categoryNames store fresh).map (fun c => c.handle)
      = ((jsSetDedup categoryNames).filter (fun n =>
          !(lastMatch (fun c => decide (c.handle = nameToHandle n))
              (catPool categoryNames store)).isSome)).map nameToHandle := by
  unfold catCreated
  rw [List.map_map]
  have h1 : ((fun c => c.handle)
        ∘ fun (e : Nat × (String × String)) => Category.mk (fresh e.1) e.2.1 e.2.2)
      = (fun (e : Nat × (String × String)) => e.2.2) := rfl
  rw [h1]
  have h2 : List.map (fun (e : Nat × (String × String)) => e.2.2)
        ((List.range (catToCreate categoryNames store).length).zip
          (catToCreate categoryNames store))
      = List.map (fun (pr : String × String) => pr.2)
          (List.map Prod.snd
            ((List.range (catToCreate categoryNames store).length).zip
              (catToCreate categoryNames store))) := by
    rw [List.map_map]; rfl
  rw [h2, List.map_snd_zip _ _ (by simp)]
  unfold catToCreate
  rw [List.map_map]
  rfl

theorem brandCreated_mem {brandNames : List String} {store : List Brand}
    {fresh : Nat → String} {b : Brand}
    (hb : b ∈ brandCreated brandNames store fresh) :
    b.name ∈ jsSetDedup brandNames
      ∧ jsFalsy (recGet (brandPool brandNames store) b.name) = true := by
  unfold brandCreated at hb
  obtain ⟨e, he, rfl⟩ := List.mem_map.mp hb
  have h2 : (e.1, e.2) ∈ (List.range (brandToCreate brandNames store).length).zip
      (brandToCreate brandNames store) := by simpa using he
  have hsnd : e.2 ∈ brandToCreate brandNames store := (List.of_mem_zip h2).2
  unfold brandToCreate at hsnd
  rw [List.mem_filter] at hsnd
  exact ⟨hsnd.1, hsnd.2⟩

theorem brandCreated_intro {brandNames : List String} {store : List Brand}
    (fresh : Nat → String) {n : String}
    (hn : n ∈ jsSetDedup brandNames)
    (hf : jsFalsy (recGet (brandPool brandNames store) n) = true) :
    ∃ b ∈ brandCreated brandNames store fresh, b.name = n := by
  have hmem : n ∈ brandToCreate brandNames store := by
    unfold brandToCreate; exact List.mem_filter.mpr ⟨hn, hf⟩
  obtain ⟨i, hzip⟩ := exists_zip_range hmem
  exact ⟨Brand.mk (fresh i) n, List.mem_map.mpr ⟨(i, n), hzip, rfl⟩, rfl⟩

theorem catCreated_mem {categoryNames : List String} {store : List Category}
    {fresh : Nat → String} {c : Category}
    (hc : c ∈ catCreated categoryNames store fresh) :
    ∃ n ∈ jsSetDedup categoryNames,
      (lastMatch (fun c2 => decide (c2.handle = nameToHandle n))
          (catPool categoryNames store)).isSome = false
        ∧ c.name = n ∧ c.handle = nameToHandle n := by
  unfold catCreated at hc
  obtain ⟨e, he, rfl⟩ := List.mem_map.mp hc
  have h2 : (e.1, e.2) ∈ (List.range (catToCreate categoryNames store).length).zip
      (catToCreate categoryNames store) := by simpa using he
  have hsnd : e.2 ∈ catToCreate categoryNames store := (List.of_mem_zip h2).2
  unfold catToCreate at hsnd
  obtain ⟨n, hn, hpr⟩ := List.mem_map.mp hsnd
  rw [List.mem_filter] at hn
  refine ⟨n, hn.1, by simpa using hn.2, ?_, ?_⟩
  · show e.2.1 = n
    rw [← hpr]
  · show e.2.2 = nameToHandle n
    rw [← hpr]

theorem catCreated_intro {categoryNames : List String} {store : List Category}
    (fresh : Nat → String) {n : String}
    (hn : n ∈ jsSetDedup categoryNames)
    (hm : (lastMatch (fun c => decide (c.handle = nameToHandle n))
        (catPool categoryNames store)).isSome = false) :
    ∃ c ∈ catCreated categoryNames store fresh,
      c.name = n ∧ c.handle = nameToHandle n := by
  have hpair : (n, nameToHandle n) ∈ catToCreate categoryNames store := by
    unfold catToCreate
    exact List.mem_map_of_mem _ (List.mem_filter.mpr ⟨hn, by simpa using hm⟩)
  obtain ⟨i, hzip⟩ := exists_zip_range hpair
  refine ⟨Category.mk (fresh i) n (nameToHandle n), ?_, rfl, rfl⟩
  unfold catCreated
  exact List.mem_map.mpr ⟨(i, (n, nameToHandle n)), hzip, rfl⟩

/-- C2 (amended): per sync run, brand names are deduplicated into single
canonical records unconditionally — a brand is created only for
deduplicated names matching no existing brand, no two brands are created
for the same name, and the returned record assigns every input name an id
(assuming stored ids are nonempty strings, as module-generated ids are).
For categories the same holds under the additional hypothesis that
distinct deduplicated names have distinct normalized handles: a category
is created only for names whose handle matches no existing category, no
two categories are created for the same handle, and every input name is
assigned an id.  Without that hypothesis the category half fails (see the
counterexample). -/
theorem brand_category_dedup_spec
    (brandNames : List String) (brandStore : List Brand)
    (categoryNames : List String) (categoryStore : List Category)
    (freshB freshC : Nat → String)
    (hids : ∀ b ∈ brandStore, b.id ≠ "")
    (hinj : ∀ n1 ∈ jsSetDedup categoryNames, ∀ n2 ∈ jsSetDedup categoryNames,
      nameToHandle n1 = nameToHandle n2 → n1 = n2) :
    (((manageBrands brandNames brandStore freshB).2.2.map
        (fun b => b.name)).Nodup)
    ∧ (∀ b ∈ (manageBrands brandNames brandStore freshB).2.2,
        ¬ ∃ e ∈ brandStore, e.name = b.name)
    ∧ (∀ n ∈ brandNames,
        (recGet (manageBrands brandNames brandStore freshB).1 n).isSome)
    ∧ (((manageCategories categoryNames categoryStore freshC).2.2.map
        (fun c => c.handle)).Nodup)
    ∧ (∀ c ∈ (manageCategories categoryNames categoryStore freshC).2.2,
        ¬ ∃ e ∈ categoryStore, e.handle = c.handle)
    ∧ (∀ n ∈ categoryNames,
        (recGet (manageCategories categoryNames categoryStore freshC).1
          n).isSome) := by
  have hbpart :
      (((manageBrands brandNames brandStore freshB).2.2.map
          (fun b => b.name)).Nodup)
      ∧ (∀ b ∈ (manageBrands brandNames brandStore freshB).2.2,
          ¬ ∃ e ∈ brandStore, e.name = b.name)
      ∧ (∀ n ∈ brandNames,
          (recGet (manageBrands brandNames brandStore freshB).1 n).isSome) := by
    by_cases hbe : brandNames.isEmpty
    · have hmb := manageBrands_empty brandNames brandStore freshB hbe
      have hnil : brandNames = [] := List.isEmpty_iff.mp hbe
      refine ⟨by rw [hmb]; simp, by rw [hmb]; intro b hb; simp at hb, ?_⟩
      intro n hn
      rw [hnil] at hn
      simp at hn
    · have hbe' : brandNames.isEmpty = false := by
        simp only [Bool.not_eq_true] at hbe; exact hbe
      refine ⟨?_, ?_, ?_⟩
      · rw [manageBrands_snd brandNames brandStore freshB hbe',
          brandCreated_names]
        exact (jsSetDedup_nodup brandNames).filter _
      · intro b hb
        rw [manageBrands_snd brandNames brandStore freshB hbe'] at hb
        obtain ⟨hmemdedup, hfal⟩ := brandCreated_mem hb
        rintro ⟨e, he, hename⟩
        have hpentry : (e.name, e.id) ∈ brandPool brandNames brandStore := by
          unfold brandPool
          refine List.mem_map.mpr ⟨e, ?_, rfl⟩
          refine List.mem_filter.mpr ⟨he, ?_⟩
          simp only [decide_eq_true_eq]
          rw [hename]
          exact hmemdedup
        have hsome : (recGet (brandPool brandNames brandStore) b.name).isSome := by
          rw [recGet_isSome_iff]
          exact ⟨(e.name, e.id), hpentry, hename⟩
        rcases jsFalsy_true_cases hfal with h0 | h0
        · rw [h0] at hsome; simp at hsome
        · obtain ⟨entry, hentry, hfst, hsnd⟩ := recGet_eq_some h0
          unfold brandPool at hentry
          obtain ⟨b2, hb2mem, hb2eq⟩ := List.mem_map.mp hentry
          rw [List.mem_filter] at hb2mem
          apply hids b2 hb2mem.1
          rw [show b2.id = entry.2 from by rw [← hb2eq], hsnd]
      · intro n hn
        have hd : n ∈ jsSetDedup brandNames := (jsSetDedup_mem_iff _ _).mpr hn
        rw [manageBrands_fst brandNames brandStore freshB hbe',
          recGet_append]
        rw [show ∀ o1 o2 : Option String, (o1.or o2).isSome
            = (o1.isSome || o2.isSome) from fun o1 o2 => or_isSome o1 o2]
        by_cases hfal : jsFalsy (recGet (brandPool brandNames brandStore) n)
        · obtain ⟨b, hbmem, hbname⟩ := brandCreated_intro freshB hd hfal
          have hcre : (recGet
              ((brandCreated brandNames brandStore freshB).map
                (fun b => (b.name, b.id))) n).isSome := by
            rw [recGet_isSome_iff]
            exact ⟨(b.name, b.id), List.mem_map_of_mem _ hbmem, hbname⟩
          simp [hcre]
        · have hex : (recGet (brandPool brandNames brandStore) n).isSome :=
            jsFalsy_false_isSome (by simpa using hfal)
          simp [hex]
  have hcpart :
      (((manageCategories categoryNames categoryStore freshC).2.2.map
          (fun c => c.handle)).Nodup)
      ∧ (∀ c ∈ (manageCategories categoryNames categoryStore freshC).2.2,
          ¬ ∃ e ∈ categoryStore, e.handle = c.handle)
      ∧ (∀ n ∈ categoryNames,
          (recGet (manageCategories categoryNames categoryStore freshC).1
            n).isSome) := by
    by_cases hce : categoryNames.isEmpty
    · have hmc := manageCategories_empty categoryNames categoryStore freshC hce
      have hnil : categoryNames = [] := List.isEmpty_iff.mp hce
      refine ⟨by rw [hmc]; simp, by rw [hmc]; intro c hc; simp at hc, ?_⟩
      intro n hn
      rw [hnil] at hn
      simp at hn
    · have hce' : categoryNames.isEmpty = false := by
        simp only [Bool.not_eq_true] at hce; exact hce
      refine ⟨?_, ?_, ?_⟩
      · rw [manageCategories_snd categoryNames categoryStore freshC hce',
          catCreated_handles]
        refine List.Nodup.map_on ?_ ((jsSetDedup_nodup categoryNames).filter _)
        intro x hx y hy hxy
        exact hinj x (List.mem_filter.mp hx).1 y (List.mem_filter.mp hy).1 hxy
      · intro c hc
        rw [manageCategories_snd categoryNames categoryStore freshC hce'] at hc
        obtain ⟨n, hn, hnone, hcname, hchandle⟩ := catCreated_mem hc
        rintro ⟨e, he, hehandle⟩
        have hep : e ∈ catPool categoryNames categoryStore := by
          unfold catPool
          refine List.mem_filter.mpr ⟨he, ?_⟩
          simp only [decide_eq_true_eq]
          rw [hehandle, hchandle]
          exact List.mem_map_of_mem _ hn
        have hsome : (lastMatch
            (fun c2 => decide (c2.handle = nameToHandle n))
            (catPool categoryNames categoryStore)).isSome := by
          rw [lastMatch_isSome_iff]
          refine ⟨e, hep, ?_⟩
          simp only [decide_eq_true_eq]
          rw [hehandle, hchandle]
        rw [hnone] at hsome
        simp at hsome
      · intro n hn
        have hd : n ∈ jsSetDedup categoryNames := (jsSetDedup_mem_iff _ _).mpr hn
        rw [manageCategories_fst categoryNames categoryStore freshC hce',
          recGet_append]
        rw [show ∀ o1 o2 : Option String, (o1.or o2).isSome
            = (o1.isSome || o2.isSome) from fun o1 o2 => or_isSome o1 o2]
        cases hm : lastMatch (fun c => decide (c.handle = nameToHandle n))
            (catPool categoryNames categoryStore) with
        | some c =>
            have hmat : (recGet (catMatched categoryNames categoryStore)
                n).isSome := by
              rw [recGet_isSome_iff]
              refine ⟨(n, c.id), ?_, rfl⟩
              unfold catMatched
              exact List.mem_filterMap.mpr ⟨n, hd, by rw [hm]; rfl⟩
            simp [hmat]
        | none =>
            have hmf : (lastMatch (fun c => decide (c.handle = nameToHandle n))
                (catPool categoryNames categoryStore)).isSome = false := by
              rw [hm]; rfl
            obtain ⟨cat, hcat, hcname, hchandle⟩ :=
              catCreated_intro freshC hd hmf
            have hfindsome : ((jsSetDedup categoryNames).find?
                (fun u => decide (nameToHandle u = cat.handle))).isSome := by
              rw [List.find?_isSome]
              exact ⟨n, hd, by simp [hchandle]⟩
            obtain ⟨u0, hu0⟩ := Option.isSome_iff_exists.mp hfindsome
            have hu0p : nameToHandle u0 = cat.handle := by
              simpa using List.find?_some hu0
            have hu0mem : u0 ∈ jsSetDedup categoryNames :=
              List.mem_of_find?_eq_some hu0
            have hu0n : u0 = n :=
              hinj u0 hu0mem n hd (by rw [hu0p, hchandle])
            have hassign : (n, cat.id)
                ∈ catAssignments categoryNames categoryStore freshC := by
              unfold catAssignments
              refine List.mem_filterMap.mpr ⟨cat, hcat, ?_⟩
              rw [hu0]
              simp [hu0n]
            have hras : (recGet
                (catAssignments categoryNames categoryStore freshC)
                n).isSome := by
              rw [recGet_isSome_iff]
              exact ⟨(n, cat.id), hassign, rfl⟩
            simp [hras]
  exact ⟨hbpart.1, hbpart.2.1, hbpart.2.2, hcpart.1, hcpart.2.1, hcpart.2.2⟩

/-- A concrete fresh-id supply for category creation. -/
def freshCatId (i : Nat) : String := "c" ++ toString i

/-- A concrete fresh-id supply for brand creation. -/
def freshBrandId (i : Nat) : String := "nb" ++ toString i

/-- C2 counterexample: the distinct input names "a b" and "a-b" normalize
to the same handle "a-b"; with an empty category store the step creates
TWO category records with the same handle, and the returned map assigns
the input name "a-b" no record id at all (both created rows are mapped
back to the first name "a b").  Additionally, a stored brand whose id is
the empty string (falsy) defeats the brand existence check: a second
"Acme" record is created although "Acme" matches an existing brand. -/
theorem brand_category_dedup_counterexample :
    nameToHandle "a b" = "a-b" ∧ nameToHandle "a-b" = "a-b"
    ∧ ((manageCategories ["a b", "a-b"] [] freshCatId).2.2.map
        (fun c => c.handle) = ["a-b", "a-b"])
    ∧ recGet (manageCategories ["a b", "a-b"] [] freshCatId).1 "a-b" = none
    ∧ (manageBrands ["Acme"] [Brand.mk "" "Acme"] freshBrandId).2.2
      = [Brand.mk "nb0" "Acme"] := by
  refine ⟨by decide, by decide, by decide, by decide, by decide⟩

/-- Witness for C2 at concrete inputs: names with pairwise distinct
handles and a store with nonempty ids; the step deduplicates "Nike",
creates only the unmatched brand and category, and maps every input
name. -/
theorem brand_category_dedup_spec_witness :
    (∀ b ∈ [Brand.mk "b1" "Nike"], b.id ≠ "")
    ∧ (∀ n1 ∈ jsSetDedup ["Phones", "Laptops"],
        ∀ n2 ∈ jsSetDedup ["Phones", "Laptops"],
          nameToHandle n1 = nameToHandle n2 → n1 = n2)
    ∧ (((manageBrands ["Nike", "Nike", "Adidas"] [Brand.mk "b1" "Nike"]
          freshBrandId).2.2.map (fun b => b.name)).Nodup)
    ∧ (∀ n ∈ ["Nike", "Nike", "Adidas"],
        (recGet (manageBrands ["Nike", "Nike", "Adidas"]
          [Brand.mk "b1" "Nike"] freshBrandId).1 n).isSome)
    ∧ (∀ n ∈ ["Phones", "Laptops"],
        (recGet (manageCategories ["Phones", "Laptops"] [] freshCatId).1
          n).isSome) := by
  have hids : ∀ b ∈ [Brand.mk "b1" "Nike"], b.id ≠ "" := by decide
  have hinj : ∀ n1 ∈ jsSetDedup ["Phones", "Laptops"],
      ∀ n2 ∈ jsSetDedup ["Phones", "Laptops"],
        nameToHandle n1 = nameToHandle n2 → n1 = n2 := by decide
  have hres := brand_category_dedup_spec ["Nike", "Nike", "Adidas"]
    [Brand.mk "b1" "Nike"] ["Phones", "Laptops"] [] freshBrandId freshCatId
    hids hinj
  exact ⟨hids, hinj, hres.1, hres.2.2.1, hres.2.2.2.2.2⟩

/-! ## CSV row specification (for C10) -/

/-- A field of a CSV row: emitted bare (`unq`) or wrapped in double quotes
with embedded quotes doubled (`q`). -/
inductive CsvField where
  | unq (s : String)
  | q (s : String)

/-- The characters a field contributes to the row. -/
def renderField : CsvField → List Char
  | .unq s => s.data
  | .q s => '"' :: (escChars s.data ++ ['"'])

/-- The characters of a comma-joined row of fields. -/
def renderRow : List CsvField → List Char
  | [] => []
  | [f] => renderField f
  | f :: rest => renderField f ++ ',' :: renderRow rest

/-- The value a CSV parser should recover for a field. -/
def fieldValue : CsvField → String
  | .unq s => s
  | .q s => s

/-- An unquoted field is CSV-safe when it contains no comma and no double
quote; a quoted field is always safe. -/
def fieldSafe : CsvField → Prop
  | .unq s => ∀ c ∈ s.data, c ≠ ',' ∧ c ≠ '"'
  | .q _ => True

theorem readUnquoted_no_comma (f : List Char) (hf : ∀ c ∈ f, c ≠ ',') :
    readUnquoted f = (f, []) := by
  induction f with
  | nil => rfl
  | cons c t ih =>
      have hc : c ≠ ',' := hf c (by simp)
      simp only [readUnquoted, if_neg hc]
      simp [ih (fun x hx => hf x (by simp [hx]))]

theorem readUnquoted_split (f rest : List Char) (hf : ∀ c ∈ f, c ≠ ',') :
    readUnquoted (f ++ ',' :: rest) = (f, ',' :: rest) := by
  induction f with
  | nil => simp [readUnquoted]
  | cons c t ih =>
      have hc : c ≠ ',' := hf c (by simp)
      simp only [List.cons_append, readUnquoted, if_neg hc]
      simp [ih (fun x hx => hf x (by simp [hx]))]

theorem readQuoted_cons_other (c : Char) (rest : List Char) (hc : c ≠ '"') :
    readQuoted (c :: rest) = (c :: (readQuoted rest).1, (readQuoted rest).2) := by
  rw [readQuoted.eq_def]
  simp [hc]

theorem readQuoted_quote_quote (rest2 : List Char) :
    readQuoted ('"' :: '"' :: rest2)
      = ('"' :: (readQuoted rest2).1, (readQuoted rest2).2) := by
  rw [readQuoted.eq_def]
  simp

theorem readQuoted_quote_other (c2 : Char) (r2 : List Char) (hc2 : c2 ≠ '"') :
    readQuoted ('"' :: c2 :: r2) = ([], c2 :: r2) := by
  rw [readQuoted.eq_def]
  simp [hc2]

theorem readQuoted_esc (t : List Char) (r : List Char)
    (hr : ∀ r2, r ≠ '"' :: r2) :
    readQuoted (escChars t ++ '"' :: r) = (t, r) := by
  induction t with
  | nil =>
      cases r with
      | nil => rfl
      | cons c2 r2 =>
          have hc2 : c2 ≠ '"' := fun h => hr r2 (by rw [h])
          exact readQuoted_quote_other c2 r2 hc2
  | cons c t ih =>
      by_cases hc : c = '"'
      · subst hc
        have he : escChars ('"' :: t) = '"' :: '"' :: escChars t := by
          simp [escChars]
        rw [he, List.cons_append, List.cons_append, readQuoted_quote_quote, ih]
      · have he : escChars (c :: t) = c :: escChars t := by
          simp [escChars, hc]
        rw [he, List.cons_append, readQuoted_cons_other c _ hc, ih]

theorem splitRowF_unquoted (fuel : Nat) (f rest : List Char)
    (hf : ∀ c ∈ f, c ≠ ',' ∧ c ≠ '"') :
    splitRowF (fuel + 1) (f ++ ',' :: rest)
      = f.asString :: splitRowF fuel rest := by
  have hru := readUnquoted_split f rest (fun x hx => (hf x hx).1)
  cases f with
  | nil =>
      simp [splitRowF, readUnquoted]
  | cons c f2 =>
      have hc := hf c (by simp)
      show splitRowF (fuel + 1) (c :: (f2 ++ ',' :: rest)) = _
      simp only [splitRowF, if_neg hc.2]
      rw [show readUnquoted (c :: (f2 ++ ',' :: rest))
          = ((c :: f2), ',' :: rest) from hru]
      rfl

theorem splitRowF_quoted (fuel : Nat) (t rest : List Char) :
    splitRowF (fuel + 1) ('"' :: (escChars t ++ '"' :: ',' :: rest))
      = t.asString :: splitRowF fuel rest := by
  have hq := readQuoted_esc t (',' :: rest) (fun r2 h => by simp at h)
  simp only [splitRowF]
  rw [hq]
  rfl

theorem splitRowF_last_unquoted (fuel : Nat) (f : List Char)
    (hf : ∀ c ∈ f, c ≠ ',' ∧ c ≠ '"') :
    splitRowF (fuel + 1) f = [f.asString] := by
  have hru := readUnquoted_no_comma f (fun x hx => (hf x hx).1)
  cases f with
  | nil => rfl
  | cons c f2 =>
      have hc := hf c (by simp)
      simp only [splitRowF, if_neg hc.2]
      rw [show readUnquoted (c :: f2) = ((c :: f2), ([] : List Char)) from hru]

theorem splitRowF_last_quoted (fuel : Nat) (t : List Char) :
    splitRowF (fuel + 1) ('"' :: (escChars t ++ ['"'])) = [t.asString] := by
  have hq : readQuoted (escChars t ++ ['"']) = (t, []) := by
    rw [show escChars t ++ ['"'] = escChars t ++ '"' :: ([] : List Char)
        from rfl]
    exact readQuoted_esc t [] (fun r2 h => by simp at h)
  simp only [splitRowF]
  rw [hq]
  rfl

theorem splitRowF_renderRow :
    ∀ (specs : List CsvField) (fuel : Nat),
      (∀ f ∈ specs, fieldSafe f) → specs ≠ [] →
      (renderRow specs).length ≤ fuel →
      splitRowF (fuel + 1) (renderRow specs) = specs.map fieldValue := by
  intro specs
  induction specs with
  | nil => intro fuel _ hne _; exact absurd rfl hne
  | cons f rest ih =>
      intro fuel hsafe _ hlen
      cases rest with
      | nil =>
          cases f with
          | unq s =>
              have hs : ∀ c ∈ s.data, c ≠ ',' ∧ c ≠ '"' :=
                hsafe (CsvField.unq s) (by simp)
              show splitRowF (fuel + 1) s.data = [s]
              rw [splitRowF_last_unquoted fuel s.data hs]
              simp [List.asString]
          | q s =>
              show splitRowF (fuel + 1) ('"' :: (escChars s.data ++ ['"'])) = [s]
              rw [splitRowF_last_quoted]
              simp [List.asString]
      | cons g rest2 =>
          have hsafe2 : ∀ x ∈ g :: rest2, fieldSafe x :=
            fun x hx => hsafe x (by simp [hx])
          have hL : (renderRow (f :: g :: rest2)).length
              = (renderField f).length + 1 + (renderRow (g :: rest2)).length := by
            rw [show renderRow (f :: g :: rest2)
                = renderField f ++ ',' :: renderRow (g :: rest2) from rfl]
            simp
            omega
          cases fuel with
          | zero =>
              rw [hL] at hlen
              omega
          | succ m =>
              have hlen2 : (renderRow (g :: rest2)).length ≤ m := by
                rw [hL] at hlen
                omega
              have hrec := ih m hsafe2 (by simp) hlen2
              cases f with
              | unq s =>
                  have hs : ∀ c ∈ s.data, c ≠ ',' ∧ c ≠ '"' :=
                    hsafe (CsvField.unq s) (by simp)
                  show splitRowF (m + 1 + 1)
                      (s.data ++ ',' :: renderRow (g :: rest2))
                    = s :: (g :: rest2).map fieldValue
                  rw [splitRowF_unquoted (m + 1) s.data _ hs, hrec]
                  simp [List.asString]
              | q s =>
                  have hre : renderRow (CsvField.q s :: g :: rest2)
                      = '"' :: (escChars s.data ++ '"' :: ','
                          :: renderRow (g :: rest2)) := by
                    show '"' :: ((escChars s.data ++ ['"'])
                        ++ ',' :: renderRow (g :: rest2)) = _
                    rw [List.append_assoc]
                    rfl
                  rw [hre, splitRowF_quoted (m + 1) s.data _, hrec]
                  simp only [List.asString, List.map_cons]
                  rfl

theorem digitChar_isDigit {k : Nat} (hk : k < 10) :
    (Nat.digitChar k).isDigit := by
  interval_cases k <;> decide

theorem natCharsF_digit :
    ∀ (fuel n : Nat), ∀ c ∈ natCharsF fuel n, c.isDigit := by
  intro fuel
  induction fuel with
  | zero => intro n c hc; simp [natCharsF] at hc
  | succ m ih =>
      intro n c hc
      simp only [natCharsF] at hc
      by_cases h : n < 10
      · rw [if_pos h] at hc
        simp only [List.mem_singleton] at hc
        subst hc
        exact digitChar_isDigit h
      · rw [if_neg h] at hc
        rw [List.mem_append] at hc
        rcases hc with hc | hc
        · exact ih _ _ hc
        · simp only [List.mem_singleton] at hc
          subst hc
          exact digitChar_isDigit (Nat.mod_lt _ (by omega))

theorem isDigit_safe {c : Char} (h : c.isDigit) : c ≠ ',' ∧ c ≠ '"' := by
  constructor
  · intro he; subst he; exact absurd h (by decide)
  · intro he; subst he; exact absurd h (by decide)

theorem centsFixed2_safe (n : Nat) :
    ∀ c ∈ (centsFixed2 n).data, c ≠ ',' ∧ c ≠ '"' := by
  intro c hc
  have hc2 : c ∈ natChars (n / 100) ++ '.' ::
      (if n % 100 < 10 then ['0', Nat.digitChar (n % 100)]
       else natChars (n % 100)) := hc
  rw [List.mem_append] at hc2
  rcases hc2 with hc2 | hc2
  · exact isDigit_safe (natCharsF_digit _ _ c hc2)
  · rw [List.mem_cons] at hc2
    rcases hc2 with hc2 | hc2
    · subst hc2; exact ⟨by decide, by decide⟩
    · by_cases hlt : n % 100 < 10
      · rw [if_pos hlt] at hc2
        simp only [List.mem_cons, List.mem_singleton] at hc2
        rcases hc2 with hc2 | hc2 | hc2
        · subst hc2; exact ⟨by decide, by decide⟩
        · subst hc2
          exact isDigit_safe (digitChar_isDigit (by omega))
        · simp at hc2
      · rw [if_neg hlt] at hc2
        exact isDigit_safe (natCharsF_digit _ _ c hc2)

theorem priceDisplay_safe (o : Option Nat) :
    ∀ c ∈ (priceDisplay o).data, c ≠ ',' ∧ c ≠ '"' := by
  intro c hc
  cases o with
  | none =>
      have hc2 : c ∈ ['N', '/', 'A'] := hc
      fin_cases hc2 <;> exact ⟨by decide, by decide⟩
  | some n =>
      by_cases hn : n = 0
      · subst hn
        have hc2 : c ∈ ['N', '/', 'A'] := hc
        fin_cases hc2 <;> exact ⟨by decide, by decide⟩
      · have hc2 : c ∈ (centsFixed2 n).data := by
          simpa [priceDisplay, hn] using hc
        exact centsFixed2_safe n c hc2

/-- The string a field contributes to the `[...].join(",")` array. -/
def renderString : CsvField → String
  | .unq s => s
  | .q s => quoteField s

theorem renderString_data (f : CsvField) :
    (renderString f).data = renderField f := by
  cases f <;> rfl

theorem joinComma_data :
    ∀ (fields : List CsvField), fields ≠ [] →
      (joinComma (fields.map renderString)).data = renderRow fields := by
  intro fields
  induction fields with
  | nil => intro h; exact absurd rfl h
  | cons f rest ih =>
      intro _
      cases rest with
      | nil =>
          show (renderString f).data = renderField f
          exact renderString_data f
      | cons g rest2 =>
          show ((renderString f ++ ",")
              ++ joinComma ((g :: rest2).map renderString)).data
            = renderField f ++ ',' :: renderRow (g :: rest2)
          rw [String.data_append, String.data_append,
            ih (by simp), renderString_data]
          rw [show ("," : String).data = [','] from rfl]
          rw [List.append_assoc]
          rfl

/-- The field list of one export data row. -/
def exportSpecs (p : ExportProduct) : List CsvField :=
  [.unq p.id, .unq (p.external_id.getD ""), .q p.title, .unq p.handle,
   .unq p.status, .q (p.brandName.getD ""),
   .unq (priceDisplay (extractUsd p.variants)), .unq p.created_at]

theorem emitRow_data_renderRow (p : ExportProduct) :
    (emitRow p).data = renderRow (exportSpecs p) := by
  have h : emitRow p = joinComma ((exportSpecs p).map renderString) := rfl
  rw [h, joinComma_data (exportSpecs p) (by simp [exportSpecs])]

/-- C10 (amended): for every product record whose unquoted fields (ID,
External ID, Handle, Status, Created At) contain no comma and no double
quote, the emitted data row, parsed under CSV quoting rules (title and
brand quoted with embedded quotes doubled), yields exactly the 8 fields of
the header, with the price field equal to the usd cent amount of the
FIRST variant divided by 100 rendered to two decimals when that amount
exists and is NONZERO, and `"N/A"` otherwise (a zero amount is falsy in
JS and also renders `"N/A"`; commas in unquoted fields, and usd prices on
later variants only, break the original claim — see the
counterexample). -/
theorem export_row_wellformed (p : ExportProduct)
    (hid : ∀ c ∈ p.id.data, c ≠ ',' ∧ c ≠ '"')
    (hext : ∀ c ∈ (p.external_id.getD "").data, c ≠ ',' ∧ c ≠ '"')
    (hhandle : ∀ c ∈ p.handle.data, c ≠ ',' ∧ c ≠ '"')
    (hstatus : ∀ c ∈ p.status.data, c ≠ ',' ∧ c ≠ '"')
    (hcreated : ∀ c ∈ p.created_at.data, c ≠ ',' ∧ c ≠ '"') :
    splitRow (emitRow p).data
      = [p.id, p.external_id.getD "", p.title, p.handle, p.status,
         p.brandName.getD "", priceDisplay (extractUsd p.variants),
         p.created_at]
    ∧ (splitRow (emitRow p).data).length = 8
    ∧ (∀ n, extractUsd p.variants = some n → n ≠ 0 →
        priceDisplay (extractUsd p.variants) = centsFixed2 n)
    ∧ ((extractUsd p.variants = some 0 ∨ extractUsd p.variants = none) →
        priceDisplay (extractUsd p.variants) = "N/A") := by
  have hsafe : ∀ f ∈ exportSpecs p, fieldSafe f := by
    intro f hf
    simp only [exportSpecs, List.mem_cons, List.mem_singleton] at hf
    rcases hf with rfl | rfl | rfl | rfl | rfl | rfl | rfl | rfl | hf
    · exact hid
    · exact hext
    · trivial
    · exact hhandle
    · exact hstatus
    · trivial
    · exact priceDisplay_safe _
    · exact hcreated
    · simp at hf
  have hsplit : splitRow (emitRow p).data = (exportSpecs p).map fieldValue := by
    unfold splitRow
    rw [emitRow_data_renderRow]
    exact splitRowF_renderRow (exportSpecs p) _ hsafe (by simp [exportSpecs])
      (Nat.le_refl _)
  refine ⟨by rw [hsplit]; rfl, by rw [hsplit]; rfl, ?_, ?_⟩
  · intro n hn hnz
    rw [hn]
    simp [priceDisplay, hnz]
  · intro h0
    rcases h0 with h0 | h0 <;> rw [h0] <;> rfl

/-- C10 counterexample product: its first variant has a usd price with
amount 0. -/
def exportZeroPrice : ExportProduct :=
  ExportProduct.mk "p1" (some "1") "Zero" "zero-1" "draft" (some "B")
    [VariantRec.mk [PriceRec.mk "usd" 0]] "2024-01-01"

/-- C10 counterexample product: its handle contains a comma and is emitted
unquoted. -/
def exportCommaHandle : ExportProduct :=
  ExportProduct.mk "p2" (some "2") "T" "x,y" "draft" none [] "2024"

/-- C10 counterexample product: a usd price exists, but only on the second
variant, which the route never inspects. -/
def exportSecondVariant : ExportProduct :=
  ExportProduct.mk "p3" (some "3") "T" "h" "draft" none
    [VariantRec.mk [], VariantRec.mk [PriceRec.mk "usd" 500]] "2024"

/-- C10 counterexample: (a) a usd price of amount 0 exists but the price
field renders "N/A", not "0.00" (JS falsiness of 0); (b) a comma inside an
unquoted field (the handle) makes the row parse into 9 fields, not 8;
(c) a usd price on the second variant is ignored and renders "N/A", though
a usd price exists on the record. -/
theorem export_row_counterexample :
    extractUsd exportZeroPrice.variants = some 0
    ∧ (splitRow (emitRow exportZeroPrice).data).get? 6 = some "N/A"
    ∧ "N/A" ≠ "0.00"
    ∧ (splitRow (emitRow exportCommaHandle).data).length = 9
    ∧ (∃ v ∈ exportSecondVariant.variants, ∃ pr ∈ v.prices,
        pr.currency_code = "usd")
    ∧ priceDisplay (extractUsd exportSecondVariant.variants) = "N/A" := by
  refine ⟨by decide, by decide, by decide, by decide, by decide, by decide⟩

/-- C10 good-case export record: quotes and commas only inside the quoted
title and brand fields, a nonzero usd price of 1999 cents. -/
def exportGood : ExportProduct :=
  ExportProduct.mk "p9" (some "9") "A \"nice\" title, yes" "good-9"
    "published" (some "Br,and") [VariantRec.mk [PriceRec.mk "usd" 1999]]
    "2024-02-03"

/-- Witness for C10 at a concrete record: the row parses back into exactly
the 8 fields, with the price rendered as 19.99. -/
theorem export_row_wellformed_witness :
    (∀ c ∈ ("p9" : String).data, c ≠ ',' ∧ c ≠ '"')
    ∧ splitRow (emitRow exportGood).data
      = ["p9", "9", "A \"nice\" title, yes", "good-9", "published",
         "Br,and", priceDisplay (extractUsd exportGood.variants),
         "2024-02-03"]
    ∧ priceDisplay (extractUsd exportGood.variants) = "19.99" := by
  have h := export_row_wellformed exportGood (by decide) (by decide)
    (by decide) (by decide) (by decide)
  exact ⟨by decide, h.1, by decide⟩

/-- Witness for C1 at concrete inputs: a two-product batch against a store
holding external id "1" splits into one create and one update, and the
membership characterization holds at the first product. -/
theorem dailyProductSync_split_spec_witness :
    ((splitBatch [StoredProduct.mk "prod_01" (some "1")]
        [RemoteProduct.mk 1 "Phone" "d1" 5 (some "Apple") (some "phones") "a.jpg",
         RemoteProduct.mk 2 "Laptop" "d2" 9 (some "Dell") (some "laptops") "b.jpg"]).1.length
      + (splitBatch [StoredProduct.mk "prod_01" (some "1")]
        [RemoteProduct.mk 1 "Phone" "d1" 5 (some "Apple") (some "phones") "a.jpg",
         RemoteProduct.mk 2 "Laptop" "d2" 9 (some "Dell") (some "laptops") "b.jpg"]).2.length
      = 2)
    ∧ (hasMatch [StoredProduct.mk "prod_01" (some "1")]
        (RemoteProduct.mk 1 "Phone" "d1" 5 (some "Apple") (some "phones") "a.jpg") = true
      ↔ ∃ q ∈ [StoredProduct.mk "prod_01" (some "1")],
          q.external_id = some (toString
            (RemoteProduct.mk 1 "Phone" "d1" 5 (some "Apple")
              (some "phones") "a.jpg").id)) :=
  ⟨(dailyProductSync_split_spec [StoredProduct.mk "prod_01" (some "1")]
      [RemoteProduct.mk 1 "Phone" "d1" 5 (some "Apple") (some "phones") "a.jpg",
       RemoteProduct.mk 2 "Laptop" "d2" 9 (some "Dell") (some "laptops") "b.jpg"]).1,
   (dailyProductSync_split_spec [StoredProduct.mk "prod_01" (some "1")]
      [RemoteProduct.mk 1 "Phone" "d1" 5 (some "Apple") (some "phones") "a.jpg",
       RemoteProduct.mk 2 "Laptop" "d2" 9 (some "Dell") (some "laptops") "b.jpg"]).2.2.2.1
     (RemoteProduct.mk 1 "Phone" "d1" 5 (some "Apple") (some "phones") "a.jpg")⟩
